import Mathlib

/-!
# negroni-prometheus: the request-metrics middleware

A shallow embedding of `middleware.go` (package `negroniprometheus`).

The package is one constructor, `NewMiddleware`, and one method,
`Middleware.ServeHTTP`.  Both are written here as state-passing functions:

* `NewMiddleware` acts on the process-wide Prometheus registry;
* `Middleware.ServeHTTP` acts on a `World`: the monotonic clock, the two metric
  vectors the receiver points to, and whatever else the handlers can reach.

The libraries the package calls (`net/http`, `context`, `time`, `unicode/utf8`,
`github.com/urfave/negroni`, `github.com/prometheus/client_golang/prometheus`)
are embedded as far as the package reaches them; each such definition says
which library function it stands for.  Go strings are byte sequences, and
`float64` arithmetic rounds to the nearest binary64.
-/

namespace NegroniPrometheus

/-! ## Go builtins -/

/-- A Go `string`: a sequence of bytes, valid UTF-8 or not. -/
abbrev GoString := List UInt8

/-- The Go string literal with the text `s`: its UTF-8 bytes. -/
def str (s : String) : GoString :=
  s.toUTF8.data.toList

/-- Go `a < b` on strings: the bytes compared in lexicographic order. -/
def GoString.lt : GoString → GoString → Bool
  | [], [] => false
  | [], _ :: _ => true
  | _ :: _, [] => false
  | a :: as, b :: bs => decide (a < b) || (a == b && GoString.lt as bs)

/-- Go `float64` values: a finite one is given by the rational it denotes, the
three special values are kept apart.  Signed zeros are not told apart. -/
inductive Float64 where
  | finite (q : ℚ)
  | posInf
  | negInf
  | nan
  deriving DecidableEq

instance (n : Nat) : OfNat Float64 n := ⟨Float64.finite n⟩

namespace Float64

/-- Go `x >= y` on `float64`: false as soon as one side is NaN. -/
def ge : Float64 → Float64 → Bool
  | nan, _ => false
  | _, nan => false
  | posInf, _ => true
  | _, negInf => true
  | finite a, finite b => decide (b ≤ a)
  | finite _, posInf => false
  | negInf, finite _ => false
  | negInf, posInf => false

/-- The numerator of `p / q * 2 ^ k` over `scaleDen q k`. -/
def scaleNum (p : Nat) (k : Int) : Nat :=
  if 0 ≤ k then p * 2 ^ k.toNat else p

/-- The denominator of `p / q * 2 ^ k` under `scaleNum p k`. -/
def scaleDen (q : Nat) (k : Int) : Nat :=
  if 0 ≤ k then q else q * 2 ^ (-k).toNat

/-- The binary scale of `p / q` (both positive): the `k` with
`2 ^ 52 ≤ p / q * 2 ^ k < 2 ^ 53`. -/
def exponent (p q : Nat) : Int :=
  let k0 : Int := 52 + (Nat.log2 q : Int) - (Nat.log2 p : Int)
  if scaleNum p k0 < 2 ^ 52 * scaleDen q k0 then k0 + 1 else k0

/-- The 53-bit significand of the binary64 nearest to `p / q`: the integer
nearest to `p / q * 2 ^ exponent p q`, a tie going to the even one. -/
def significand (p q : Nat) : Nat :=
  let n := scaleNum p (exponent p q)
  let d := scaleDen q (exponent p q)
  let m := n / d
  let r := n % d
  if d < 2 * r ∨ (2 * r = d ∧ m % 2 = 1) then m + 1 else m

/-- The binary64 value nearest to `p / q`, ties to even (IEEE 754
round-to-nearest-even).  The exponent is not bounded: the values the package
computes lie well inside the normal range of binary64. -/
def round (p q : Nat) : ℚ :=
  (significand p q : ℚ) * (2 : ℚ) ^ (-exponent p q)

end Float64

/-! ## `unicode/utf8` -/

namespace utf8

/-- Whether `lo ≤ b ≤ hi`. -/
def inRange (lo hi b : UInt8) : Bool :=
  decide (lo ≤ b) && decide (b ≤ hi)

/-- The tables `first` and `acceptRanges` of `unicode/utf8`: for a leading byte
from `0x80` up, the length of its sequence and the range its second byte must
lie in; `none` for a byte that cannot lead. -/
def acceptRange (b : UInt8) : Option (Nat × UInt8 × UInt8) :=
  if inRange 0xC2 0xDF b then some (2, 0x80, 0xBF)
  else if b = 0xE0 then some (3, 0xA0, 0xBF)
  else if inRange 0xE1 0xEC b then some (3, 0x80, 0xBF)
  else if b = 0xED then some (3, 0x80, 0x9F)
  else if inRange 0xEE 0xEF b then some (3, 0x80, 0xBF)
  else if b = 0xF0 then some (4, 0x90, 0xBF)
  else if inRange 0xF1 0xF3 b then some (4, 0x80, 0xBF)
  else if b = 0xF4 then some (4, 0x80, 0x8F)
  else none

/-- Go `utf8.ValidString(s)`. -/
def ValidString : GoString → Bool
  | [] => true
  | b :: rest =>
    if b < 0x80 then ValidString rest
    else
      match acceptRange b, rest with
      | some (2, lo, hi), c1 :: r => inRange lo hi c1 && ValidString r
      | some (3, lo, hi), c1 :: c2 :: r =>
        inRange lo hi c1 && inRange 0x80 0xBF c2 && ValidString r
      | some (4, lo, hi), c1 :: c2 :: c3 :: r =>
        inRange lo hi c1 && inRange 0x80 0xBF c2 && inRange 0x80 0xBF c3 && ValidString r
      | _, _ => false

end utf8

/-! ## `context` -/

namespace context

/-- Keys of context values.  `matchKey` is this package's key type
`type matchKey struct{}`, all of whose values are equal; `foreign` stands for
the keys other packages use. -/
inductive Key where
  | matchKey
  | foreign (name : String)
  deriving DecidableEq

/-- Values stored in a context, by dynamic type: a Go `string`, or a value of
any other dynamic type. -/
inductive Value where
  | string (s : GoString)
  | foreign (repr : String)
  deriving DecidableEq

/-- A request context: its key/value bindings, innermost first. -/
abbrev Context := List (Key × Value)

/-- Go `ctx.Value(key)`: the innermost binding of `key`, or nil (`none`). -/
def Context.Value (ctx : Context) (key : Key) : Option Value :=
  match ctx with
  | [] => none
  | (k, v) :: rest => if k = key then some v else Context.Value rest key

end context

/-! ## `net/http` -/

namespace http

/-- The table `statusText` of `net/http`: the reason phrase of each status
code that has one. -/
def statusText : List (Int × GoString) :=
  [
    (100, str "Continue"),
    (101, str "Switching Protocols"),
    (102, str "Processing"),
    (103, str "Early Hints"),
    (200, str "OK"),
    (201, str "Created"),
    (202, str "Accepted"),
    (203, str "Non-Authoritative Information"),
    (204, str "No Content"),
    (205, str "Reset Content"),
    (206, str "Partial Content"),
    (207, str "Multi-Status"),
    (208, str "Already Reported"),
    (226, str "IM Used"),
    (300, str "Multiple Choices"),
    (301, str "Moved Permanently"),
    (302, str "Found"),
    (303, str "See Other"),
    (304, str "Not Modified"),
    (305, str "Use Proxy"),
    (307, str "Temporary Redirect"),
    (308, str "Permanent Redirect"),
    (400, str "Bad Request"),
    (401, str "Unauthorized"),
    (402, str "Payment Required"),
    (403, str "Forbidden"),
    (404, str "Not Found"),
    (405, str "Method Not Allowed"),
    (406, str "Not Acceptable"),
    (407, str "Proxy Authentication Required"),
    (408, str "Request Timeout"),
    (409, str "Conflict"),
    (410, str "Gone"),
    (411, str "Length Required"),
    (412, str "Precondition Failed"),
    (413, str "Request Entity Too Large"),
    (414, str "Request URI Too Long"),
    (415, str "Unsupported Media Type"),
    (416, str "Requested Range Not Satisfiable"),
    (417, str "Expectation Failed"),
    (418, str "I\x27m a teapot"),
    (421, str "Misdirected Request"),
    (422, str "Unprocessable Entity"),
    (423, str "Locked"),
    (424, str "Failed Dependency"),
    (425, str "Too Early"),
    (426, str "Upgrade Required"),
    (428, str "Precondition Required"),
    (429, str "Too Many Requests"),
    (431, str "Request Header Fields Too Large"),
    (451, str "Unavailable For Legal Reasons"),
    (500, str "Internal Server Error"),
    (501, str "Not Implemented"),
    (502, str "Bad Gateway"),
    (503, str "Service Unavailable"),
    (504, str "Gateway Timeout"),
    (505, str "HTTP Version Not Supported"),
    (506, str "Variant Also Negotiates"),
    (507, str "Insufficient Storage"),
    (508, str "Loop Detected"),
    (510, str "Not Extended"),
    (511, str "Network Authentication Required")
  ]

/-- Go `http.StatusText`: the reason phrase of a status code, and the empty
string for a code that has none. -/
def StatusText (code : Int) : GoString :=
  match statusText.lookup code with
  | some text => text
  | none => []

/-- The part of `url.URL` the package reads. -/
structure URL where
  Path : GoString
  deriving DecidableEq

/-- The part of `http.Request` the package reads: the method as received, the
URL, and the request context (`r.Context()`). -/
structure Request where
  Method : GoString
  URL : URL
  ctx : context.Context
  deriving DecidableEq

/-- The state of the response sink behind an `http.ResponseWriter`: the status
sent (`0` while no header has been sent), the header map and the body bytes. -/
structure ResponseWriter where
  status : Int
  header : List (GoString × GoString)
  body : List UInt8
  deriving DecidableEq

/-- Go `w.WriteHeader(code)`: sends the header with `code`, once. -/
def ResponseWriter.WriteHeader (rw : ResponseWriter) (code : Int) : ResponseWriter :=
  if rw.status = 0 then { rw with status := code } else rw

end http

/-! ## `github.com/urfave/negroni` -/

namespace negroni

/-- The struct `responseWriter` of negroni (`response_writer.go`): the wrapped
sink, and the status and size that were written through the wrapper. -/
structure responseWriter where
  inner : http.ResponseWriter
  status : Int
  size : Int
  deriving DecidableEq

/-- Go `negroni.NewResponseWriter(rw)`: a new `responseWriter` round `rw` with
zero status and size; making it writes nothing to `rw`. -/
def NewResponseWriter (rw : http.ResponseWriter) : responseWriter :=
  { inner := rw, status := 0, size := 0 }

/-- Go `res.Status()`: the `status` field of the wrapper. -/
def responseWriter.Status (res : responseWriter) : Int :=
  res.status

end negroni

/-! ## `github.com/prometheus/client_golang/prometheus` -/

namespace prometheus

/-- Go `prometheus.Labels` (a `map[string]string`), as the list of its entries. -/
abbrev Labels := List (GoString × GoString)

/-- The descriptor `prometheus.Desc` of a series: fully-qualified name, help
text, constant labels, the names of the variable labels, and the error
`NewDesc` found, if any. -/
structure Desc where
  fqName : GoString
  help : GoString
  constLabels : Labels
  variableLabels : List GoString
  err : Option String
  deriving DecidableEq

/-- The label names `NewDesc` hashes: the constant label names, and the
variable label names each marked by a leading `$`. -/
def Desc.labelNames (d : Desc) : List GoString :=
  d.constLabels.map Prod.fst ++ d.variableLabels.map (fun n => str "$" ++ n)

/-- The strings `NewDesc` hashes into `Desc.id`: the fully-qualified name, then
the constant label values in the order of their sorted names.  The library
keeps a 64-bit hash of them; the embedding keeps the strings themselves. -/
def Desc.id (d : Desc) : List GoString :=
  d.fqName :: (d.constLabels.insertionSort (fun a b => GoString.lt b.1 a.1 = false)).map Prod.snd

/-- The strings `NewDesc` hashes into `Desc.dimHash`: the help text, then the
sorted label names. -/
def Desc.dimHash (d : Desc) : List GoString :=
  d.help :: d.labelNames.insertionSort (fun a b => GoString.lt b a = false)

/-- Go `validateLabelValues(vals, expected)`: the number of values must be
`expected` and each value valid UTF-8. -/
def validateLabelValues (vals : List GoString) (expected : Nat) : Except String Unit :=
  if vals.length ≠ expected then .error "inconsistent label cardinality"
  else if vals.all utf8.ValidString then .ok ()
  else .error "label value is not valid UTF-8"

/-- Go `prometheus.NewDesc(fqName, help, variableLabels, constLabels)`: the
descriptor, with the error set when a constant label value (or the name) is
not valid UTF-8.  The other checks of `NewDesc` are on the metric name and
the label names, which are constants of the package and pass them. -/
def NewDesc (fqName help : GoString) (variableLabels : List GoString) (constLabels : Labels) :
    Desc :=
  { fqName := fqName, help := help, constLabels := constLabels,
    variableLabels := variableLabels,
    err :=
      match validateLabelValues
          (fqName :: (constLabels.insertionSort (fun a b => GoString.lt b.1 a.1 = false)).map Prod.snd)
          (constLabels.length + 1) with
      | .ok _ => none
      | .error e => some e }

/-- Go `prometheus.CounterOpts`, the fields the package sets. -/
structure CounterOpts where
  Name : GoString
  Help : GoString
  ConstLabels : Labels

/-- Go `prometheus.HistogramOpts`, the fields the package sets. -/
structure HistogramOpts where
  Name : GoString
  Help : GoString
  ConstLabels : Labels
  Buckets : List Float64

/-- A `*prometheus.CounterVec`: its descriptor and the value of the counter at
each tuple of label values (`0` for a tuple never used).  Counts are natural
numbers; the 64-bit range of the library counter is not modelled. -/
structure CounterVec where
  desc : Desc
  values : List GoString → Nat

/-- A `*prometheus.HistogramVec`: its descriptor, the `Buckets` of its options,
and the observations made at each tuple of label values, oldest first. -/
structure HistogramVec where
  desc : Desc
  buckets : List Float64
  observations : List GoString → List Float64

/-- Go `prometheus.NewCounterVec(opts, labelNames)`. -/
def NewCounterVec (opts : CounterOpts) (labelNames : List GoString) : CounterVec :=
  { desc := NewDesc opts.Name opts.Help labelNames opts.ConstLabels,
    values := fun _ => 0 }

/-- Go `prometheus.NewHistogramVec(opts, labelNames)`.  The vector keeps the
options; a child histogram is built from them when its labels are first used. -/
def NewHistogramVec (opts : HistogramOpts) (labelNames : List GoString) : HistogramVec :=
  { desc := NewDesc opts.Name opts.Help labelNames opts.ConstLabels,
    buckets := opts.Buckets,
    observations := fun _ => [] }

/-- Go `v.WithLabelValues(lvs...)` on a counter vector: the child at `lvs`
(named here by `lvs` itself); the call panics when `validateLabelValues`
refuses the values. -/
def CounterVec.WithLabelValues (v : CounterVec) (lvs : List GoString) :
    Except String (List GoString) :=
  match validateLabelValues lvs v.desc.variableLabels.length with
  | .error e => .error e
  | .ok _ => .ok lvs

/-- Go `Inc()` on the child at `lvs`: that counter goes up by one. -/
def CounterVec.Inc (v : CounterVec) (lvs : List GoString) : CounterVec :=
  { v with values := fun l => if l = lvs then v.values l + 1 else v.values l }

/-- The package variable `prometheus.DefBuckets`. -/
def DefBuckets : List Float64 :=
  [Float64.finite (Float64.round 5 1000), Float64.finite (Float64.round 1 100),
    Float64.finite (Float64.round 25 1000), Float64.finite (Float64.round 5 100),
    Float64.finite (Float64.round 1 10), Float64.finite (Float64.round 25 100),
    Float64.finite (Float64.round 5 10), 1, Float64.finite (Float64.round 25 10), 5, 10]

/-- The label name `le`, kept for the buckets of a histogram. -/
def bucketLabel : GoString := str "le"

/-- The loop of `newHistogram` over the bucket boundaries: it panics when a
boundary is `>=` the next one, and drops a last boundary that is `+Inf`. -/
def checkBuckets : List Float64 → Except String (List Float64)
  | [] => .ok []
  | [x] => if x = Float64.posInf then .ok [] else .ok [x]
  | x :: y :: rest =>
    if x.ge y then .error "histogram buckets must be in increasing order"
    else
      match checkBuckets (y :: rest) with
      | .error e => .error e
      | .ok ub => .ok (x :: ub)

/-- The upper bounds `newHistogram` gives every child of the vector: a panic
when a label is named `le`, the default buckets when the options have none,
and the boundaries as `checkBuckets` leaves them. -/
def HistogramVec.upperBounds (v : HistogramVec) : Except String (List Float64) :=
  if v.desc.variableLabels.contains bucketLabel ||
      (v.desc.constLabels.map Prod.fst).contains bucketLabel then
    .error "le is not allowed as label name in histograms"
  else
    checkBuckets (if v.buckets.length = 0 then DefBuckets else v.buckets)

/-- Go `v.WithLabelValues(lvs...)` on a histogram vector: the values are
validated, then the child is looked up and, on first use, built by
`newHistogram`; a vector whose children cannot be built never holds one. -/
def HistogramVec.WithLabelValues (v : HistogramVec) (lvs : List GoString) :
    Except String (List GoString) :=
  match validateLabelValues lvs v.desc.variableLabels.length with
  | .error e => .error e
  | .ok _ =>
    match v.upperBounds with
    | .error e => .error e
    | .ok _ => .ok lvs

/-- Go `Observe(x)` on the child at `lvs`: one more observation there. -/
def HistogramVec.Observe (v : HistogramVec) (lvs : List GoString) (x : Float64) : HistogramVec :=
  { v with observations := fun l => if l = lvs then v.observations l ++ [x] else v.observations l }

/-- What a registry holds: the collectors registered with it. -/
inductive Collector where
  | counterVec (c : CounterVec)
  | histogramVec (h : HistogramVec)

/-- Go `Describe`: the one descriptor a vector yields. -/
def Collector.desc : Collector → Desc
  | .counterVec c => c.desc
  | .histogramVec h => h.desc

/-- The process-wide registry (`prometheus.DefaultRegisterer`). -/
structure Registry where
  collectors : List Collector

/-- Go `Registry.Register(c)` (`registry.go`) for a collector of one
descriptor: refused when the descriptor carries an error, when a registered
descriptor of the same fully-qualified name has other label names or another
help text, and when a registered descriptor has the same id (same name and
same constant label values); otherwise `c` is added.  `MustRegister` panics
with the error. -/
def Registry.Register (reg : Registry) (c : Collector) : Except String Registry :=
  match c.desc.err with
  | some e => .error e
  | none =>
    if reg.collectors.any
        (fun c0 => c0.desc.fqName == c.desc.fqName && c0.desc.dimHash != c.desc.dimHash) then
      .error "a previously registered descriptor with the same fully-qualified name has different label names or a different help string"
    else if reg.collectors.any (fun c0 => c0.desc.id == c.desc.id) then
      .error "duplicate metrics collector registration attempted"
    else
      .ok { collectors := reg.collectors ++ [c] }

end prometheus

/-! ## `time` -/

namespace time

/-- Go `time.Since(start).Nanoseconds()` when the monotonic clock reads `now`:
the difference of the two readings in nanoseconds, kept within the range of
`int64` as `time.Duration` does. -/
def Since (start now : Nat) : Int :=
  max (-(2 ^ 63)) (min ((now : Int) - (start : Int)) (2 ^ 63 - 1))

end time

/-! ## `middleware.go` -/

/-- The package variable `dflBuckets`. -/
def dflBuckets : List Float64 := [300, 1200, 5000]

/-- The constant `reqsName`. -/
def reqsName : GoString := str "negroni_requests_total"

/-- The constant `latencyName`. -/
def latencyName : GoString := str "negroni_request_duration_milliseconds"

/-- The struct `Middleware`: the two vectors its fields point to. -/
structure Middleware where
  reqs : prometheus.CounterVec
  latency : prometheus.HistogramVec

/-- The package variable `MatchedRoutePathKey = matchKey{}`. -/
def MatchedRoutePathKey : context.Key := context.Key.matchKey

/-- The result of `NewMiddleware`, with the registry as the call leaves it:
the new handle, or the panic of `MustRegister`. -/
inductive Constructed where
  | ok (m : Middleware) (reg : prometheus.Registry)
  | panicked (err : String) (reg : prometheus.Registry)

/-- Go `NewMiddleware(name, buckets...)` run on the registry `reg`. -/
def NewMiddleware (name : GoString) (buckets : List Float64) (reg : prometheus.Registry) :
    Constructed :=
  let reqs := prometheus.NewCounterVec
    { Name := reqsName,
      Help := str "How many HTTP requests processed, partitioned by status code, method and HTTP path.",
      ConstLabels := [(str "service", name)] }
    [str "code", str "method", str "path"]
  match reg.Register (.counterVec reqs) with
  | .error err => .panicked err reg
  | .ok reg =>
    let buckets := if buckets.length = 0 then dflBuckets else buckets
    let latency := prometheus.NewHistogramVec
      { Name := latencyName,
        Help := str "How long it took to process the request, partitioned by status code, method and HTTP path.",
        ConstLabels := [(str "service", name)],
        Buckets := buckets }
      [str "code", str "method", str "path"]
    match reg.Register (.histogramVec latency) with
    | .error err => .panicked err reg
    | .ok reg => .ok { reqs := reqs, latency := latency } reg

/-- The state a request is served in: the reading of the monotonic clock in
nanoseconds, the vectors of the receiver `m`, and the rest of the program
state (`app`), which only the handlers use. -/
structure World (σ : Type) where
  now : Nat
  m : Middleware
  app : σ

/-- The clock moves on by `d` nanoseconds. -/
def World.elapse {σ : Type} (w : World σ) (d : Nat) : World σ :=
  { w with now := w.now + d }

/-- How a handler call ends, with the sink and the state as it leaves them: it
returns, or it panics with a value. -/
inductive Outcome (σ : Type) where
  | returned (rw : http.ResponseWriter) (w : World σ)
  | panicked (v : String) (rw : http.ResponseWriter) (w : World σ)

/-- Go `http.HandlerFunc`: called with the sink and the request, it runs on
the whole state. -/
abbrev HandlerFunc (σ : Type) := http.ResponseWriter → http.Request → World σ → Outcome σ

/-- The time, in nanoseconds, that the steps of `ServeHTTP` itself take:
`resolve` the context lookup (lines 62 to 69), `wrap` the call of
`negroni.NewResponseWriter`, `count` the label lookup and `Inc` of line 74,
`lookup` the label lookup of line 75, `observe` the `Observe` of line 75. -/
structure Timing where
  resolve : Nat
  wrap : Nat
  count : Nat
  lookup : Nat
  observe : Nat

/-- Go `float64(ns) / 1000000` for an `int64` value `ns`: the conversion rounds
`ns` to the nearest binary64, and the division rounds the quotient of that
value by 1000000 to the nearest binary64. -/
def millis (ns : Int) : Float64 :=
  let s := Float64.significand ns.natAbs 1
  let k := Float64.exponent ns.natAbs 1
  let x := Float64.round (Float64.scaleNum s (-k)) (Float64.scaleDen 1000000 (-k))
  Float64.finite (if ns < 0 then -x else x)

/-- Go `(m *Middleware).ServeHTTP(rw, r, next)`, the receiver being the
vectors of the state.  The calls of line 75 run in Go order: `WithLabelValues`
on the histogram first, then `time.Since`, then `Observe`. -/
def Middleware.ServeHTTP {σ : Type} (t : Timing) (rw : http.ResponseWriter) (r : http.Request)
    (next : HandlerFunc σ) (w : World σ) : Outcome σ :=
  let path :=
    match r.ctx.Value MatchedRoutePathKey with
    | some (.string p) => p
    | _ => r.URL.Path
  let w := w.elapse t.resolve
  let start := w.now
  match next rw r w with
  | .panicked v rw w => .panicked v rw w
  | .returned rw w =>
    let res := negroni.NewResponseWriter rw
    let w := w.elapse t.wrap
    match w.m.reqs.WithLabelValues [http.StatusText res.Status, r.Method, path] with
    | .error err => .panicked err rw w
    | .ok child =>
      let w := { w with m := { w.m with reqs := w.m.reqs.Inc child } }
      let w := w.elapse t.count
      match w.m.latency.WithLabelValues [http.StatusText res.Status, r.Method, path] with
      | .error err => .panicked err rw w
      | .ok child =>
        let w := w.elapse t.lookup
        let x := millis (time.Since start w.now)
        let w := { w with m := { w.m with latency := w.m.latency.Observe child x } }
        .returned rw (w.elapse t.observe)

/-- The label tuple `ServeHTTP` records under, as lines 62 to 75 compute it
from the request and the sink `rw` that `next` left. -/
def recordedLabels (rw : http.ResponseWriter) (r : http.Request) : List GoString :=
  [http.StatusText (negroni.NewResponseWriter rw).Status, r.Method,
    match r.ctx.Value MatchedRoutePathKey with
    | some (.string p) => p
    | _ => r.URL.Path]

/-! ## Vocabulary of the statements -/

/-- Whether the children of the histogram vector can be built. -/
def prometheus.HistogramVec.builds (v : prometheus.HistogramVec) : Bool :=
  match v.upperBounds with
  | .ok _ => true
  | .error _ => false

/-- Both vectors of `m` have three variable labels, and the children of its
histogram vector can be built. -/
def Middleware.WellFormed (m : Middleware) : Prop :=
  m.reqs.desc.variableLabels.length = 3 ∧ m.latency.desc.variableLabels.length = 3 ∧
    m.latency.builds = true

instance (m : Middleware) : Decidable m.WellFormed := by
  unfold Middleware.WellFormed; exact inferInstance

/-- Every label value of the tuple is valid UTF-8. -/
def ValidLabels (lvs : List GoString) : Prop :=
  lvs.all utf8.ValidString = true

instance (lvs : List GoString) : Decidable (ValidLabels lvs) := by
  unfold ValidLabels; exact inferInstance

/-- No boundary of the list is `>=` the one after it; for numbers, the list is
strictly increasing. -/
def Increasing : List Float64 → Prop
  | [] => True
  | [_] => True
  | x :: y :: rest => x.ge y = false ∧ Increasing (y :: rest)

/-- From `w1` to `w2` exactly one request was recorded, under the label tuple
`lvs`: the counter at `lvs` went up by one, the histogram at `lvs` gained one
observation, and no other counter or histogram child changed. -/
def RecordsAt {σ : Type} (w1 w2 : World σ) (lvs : List GoString) : Prop :=
  w2.m.reqs.values lvs = w1.m.reqs.values lvs + 1 ∧
  (∀ l, l ≠ lvs → w2.m.reqs.values l = w1.m.reqs.values l) ∧
  (∃ x, w2.m.latency.observations lvs = w1.m.latency.observations lvs ++ [x]) ∧
  (∀ l, l ≠ lvs → w2.m.latency.observations l = w1.m.latency.observations l)

/-- The state as a call left it. -/
def Outcome.world {σ : Type} : Outcome σ → World σ
  | .returned _ w => w
  | .panicked _ _ w => w

/-- A handler that sends the header with status `code` and takes `d`
nanoseconds. -/
def writeStatus {σ : Type} (code : Int) (d : Nat) : HandlerFunc σ :=
  fun rw _ w => .returned (rw.WriteHeader code) (w.elapse d)

/-- A handler that panics with `v` after `d` nanoseconds, nothing written. -/
def panicWith {σ : Type} (v : String) (d : Nat) : HandlerFunc σ :=
  fun rw _ w => .panicked v rw (w.elapse d)

/-- The registry of a process in which nothing is registered yet. -/
def emptyRegistry : prometheus.Registry :=
  { collectors := [] }

/-- The handle `NewMiddleware name buckets` builds on lines 36 to 56: the two
new vectors, nothing recorded in them yet. -/
def freshMiddleware (name : GoString) (buckets : List Float64) : Middleware :=
  { reqs := prometheus.NewCounterVec
      { Name := reqsName,
        Help := str "How many HTTP requests processed, partitioned by status code, method and HTTP path.",
        ConstLabels := [(str "service", name)] }
      [str "code", str "method", str "path"],
    latency := prometheus.NewHistogramVec
      { Name := latencyName,
        Help := str "How long it took to process the request, partitioned by status code, method and HTTP path.",
        ConstLabels := [(str "service", name)],
        Buckets := if buckets.length = 0 then dflBuckets else buckets }
      [str "code", str "method", str "path"] }

/-- A registered series stands in the way of registering the descriptor `d`:
it has the name of `d` and either other label names or another help text, or
the constant label values of `d`. -/
def Blocks (c : prometheus.Collector) (d : prometheus.Desc) : Prop :=
  c.desc.fqName = d.fqName ∧ (c.desc.dimHash ≠ d.dimHash ∨ c.desc.id = d.id)

/-! ## Concrete inputs -/

/-- A sink nothing has been written to. -/
def freshSink : http.ResponseWriter :=
  { status := 0, header := [], body := [] }

/-- A run in which the steps of `ServeHTTP` itself take no time. -/
def noTime : Timing :=
  { resolve := 0, wrap := 0, count := 0, lookup := 0, observe := 0 }

/-- A run in which the `Inc` of line 74 takes half a millisecond. -/
def slowCount : Timing :=
  { resolve := 0, wrap := 0, count := 500000, lookup := 0, observe := 0 }

/-- The request of the scenario: `GET /orders/42`, matched by the route
pattern `/orders/:id`. -/
def scenarioRequest : http.Request :=
  { Method := str "GET", URL := { Path := str "/orders/42" },
    ctx := [(MatchedRoutePathKey, context.Value.string (str "/orders/:id"))] }

/-- A request with no route match in its context. -/
def rawRequest (method path : GoString) : http.Request :=
  { Method := method, URL := { Path := path }, ctx := [] }

/-- The state of the scenario: the clock at `0`, the handle of service
`orders` as `NewMiddleware` returned it, no other state. -/
def scenarioWorld : World Unit :=
  { now := 0, m := freshMiddleware (str "orders") [], app := () }

namespace Float64

/-- The scaled denominator is positive. -/
theorem scaleDen_pos (q : Nat) (k : Int) (hq : 0 < q) : 0 < scaleDen q k := by
  unfold scaleDen
  split_ifs
  · exact hq
  · positivity

/-- The scaled numerator over the scaled denominator is `p / q * 2 ^ k`. -/
theorem scale_ratio (p q : Nat) (k : Int) :
    ((scaleNum p k : Nat) : ℚ) / ((scaleDen q k : Nat) : ℚ) = (p : ℚ) / (q : ℚ) * (2 : ℚ) ^ k := by
  unfold scaleNum scaleDen
  by_cases hk : 0 ≤ k
  · simp only [hk, if_true]
    obtain ⟨n, rfl⟩ := Int.eq_ofNat_of_zero_le hk
    simp only [Int.toNat_ofNat, Nat.cast_mul, Nat.cast_pow, Nat.cast_ofNat, zpow_natCast]
    ring
  · simp only [hk, if_false]
    have hk' : 0 ≤ -k := by omega
    obtain ⟨n, hn⟩ := Int.eq_ofNat_of_zero_le hk'
    have hkn : k = -(n : Int) := by omega
    rw [hn, hkn]
    simp only [Int.toNat_ofNat, Nat.cast_mul, Nat.cast_pow, Nat.cast_ofNat, zpow_neg, zpow_natCast]
    rw [div_mul_eq_div_div, div_eq_mul_inv ((p : ℚ) / q)]

/-- At the chosen scale `p / q` is at least `2 ^ 52`. -/
theorem exponent_lower (p q : Nat) (hp : 0 < p) (hq : 0 < q) :
    2 ^ 52 * scaleDen q (exponent p q) ≤ scaleNum p (exponent p q) := by
  unfold exponent
  simp only
  split_ifs with h
  · have hd := scaleDen_pos q (52 + (Nat.log2 q : Int) - (Nat.log2 p : Int) + 1) hq
    have hratio := scale_ratio p q (52 + (Nat.log2 q : Int) - (Nat.log2 p : Int) + 1)
    have hA : ((2 : ℚ) ^ Nat.log2 p) ≤ (p : ℚ) := by
      exact_mod_cast Nat.log2_self_le (Nat.pos_iff_ne_zero.mp hp)
    have hB : (q : ℚ) ≤ 2 * (2 : ℚ) ^ Nat.log2 q := by
      have : q < 2 ^ (Nat.log2 q + 1) := Nat.lt_log2_self
      have h2 : (q : ℚ) < (2 : ℚ) ^ (Nat.log2 q + 1) := by exact_mod_cast this
      rw [pow_succ] at h2
      linarith
    have hpow : (2 : ℚ) ^ (52 + (Nat.log2 q : Int) - (Nat.log2 p : Int) + 1) =
        2 ^ 53 * (2 : ℚ) ^ Nat.log2 q / (2 : ℚ) ^ Nat.log2 p := by
      rw [show (52 + (Nat.log2 q : Int) - (Nat.log2 p : Int) + 1) =
        (53 : Int) + (Nat.log2 q : Int) - (Nat.log2 p : Int) by ring]
      rw [zpow_sub₀ (by norm_num), zpow_add₀ (by norm_num), zpow_natCast, zpow_natCast]
      norm_num
    have hpos : (0 : ℚ) < (2 : ℚ) ^ Nat.log2 p := by positivity
    have hposB : (0 : ℚ) < (2 : ℚ) ^ Nat.log2 q := by positivity
    have hq' : (0 : ℚ) < (q : ℚ) := by exact_mod_cast hq
    have hp' : (0 : ℚ) < (p : ℚ) := by exact_mod_cast hp
    have hge : (2 : ℚ) ^ 52 ≤ (p : ℚ) / (q : ℚ) *
        (2 : ℚ) ^ (52 + (Nat.log2 q : Int) - (Nat.log2 p : Int) + 1) := by
      rw [hpow, div_mul_div_comm, le_div_iff₀ (by positivity)]
      have key : (q : ℚ) * (2 : ℚ) ^ Nat.log2 p ≤ 2 * (2 : ℚ) ^ Nat.log2 q * (p : ℚ) := by
        calc (q : ℚ) * (2 : ℚ) ^ Nat.log2 p ≤ (2 * (2 : ℚ) ^ Nat.log2 q) * (p : ℚ) :=
          mul_le_mul hB hA hpos.le (by positivity)
          _ = 2 * (2 : ℚ) ^ Nat.log2 q * (p : ℚ) := by ring
      nlinarith [key]
    rw [← hratio, le_div_iff₀ (by exact_mod_cast hd)] at hge
    exact_mod_cast hge
  · exact not_lt.mp h

/-- The integer chosen from quotient and remainder is within a half of the
fraction. -/
theorem nearest_close (d m r : ℚ) (hd : 0 < d) (hr0 : 0 ≤ r) (hr : r < d) :
    (d ≤ 2 * r → |(m + 1) - (d * m + r) / d| ≤ 1 / 2) ∧
      (2 * r ≤ d → |m - (d * m + r) / d| ≤ 1 / 2) := by
  have e : (d * m + r) / d = m + r / d := by
    field_simp
    ring
  have h1 : r / d < 1 := (div_lt_one hd).mpr hr
  have h0 : 0 ≤ r / d := div_nonneg hr0 hd.le
  rw [e]
  constructor
  · intro h
    have : 1 / 2 ≤ r / d := by
      rw [le_div_iff₀ hd]
      linarith
    rw [abs_le]
    constructor <;> linarith
  · intro h
    have : r / d ≤ 1 / 2 := by
      rw [div_le_iff₀ hd]
      linarith
    rw [abs_le]
    constructor <;> linarith

/-- The significand is within a half of the scaled value. -/
theorem significand_close (p q : Nat) (hq : 0 < q) :
    |(significand p q : ℚ) - (scaleNum p (exponent p q) : ℚ) / (scaleDen q (exponent p q) : ℚ)|
      ≤ 1 / 2 := by
  have hd := scaleDen_pos q (exponent p q) hq
  have hd' : (0 : ℚ) < (scaleDen q (exponent p q) : ℚ) := by exact_mod_cast hd
  have hdm := Nat.div_add_mod (scaleNum p (exponent p q)) (scaleDen q (exponent p q))
  have hr := Nat.mod_lt (scaleNum p (exponent p q)) hd
  have hdm' : ((scaleNum p (exponent p q) : Nat) : ℚ) =
      (scaleDen q (exponent p q) : ℚ) *
        ((scaleNum p (exponent p q) / scaleDen q (exponent p q) : Nat) : ℚ) +
        ((scaleNum p (exponent p q) % scaleDen q (exponent p q) : Nat) : ℚ) := by
    exact_mod_cast hdm.symm
  have hr' : ((scaleNum p (exponent p q) % scaleDen q (exponent p q) : Nat) : ℚ) <
      (scaleDen q (exponent p q) : ℚ) := by exact_mod_cast hr
  have hr0 : (0 : ℚ) ≤ ((scaleNum p (exponent p q) % scaleDen q (exponent p q) : Nat) : ℚ) :=
    Nat.cast_nonneg _
  obtain ⟨hupper, hlower⟩ := nearest_close _
    ((scaleNum p (exponent p q) / scaleDen q (exponent p q) : Nat) : ℚ) _ hd' hr0 hr'
  rw [hdm']
  unfold significand
  simp only
  split_ifs with hup
  · have h2 : (scaleDen q (exponent p q) : ℚ) ≤
        2 * ((scaleNum p (exponent p q) % scaleDen q (exponent p q) : Nat) : ℚ) := by
      rcases hup with hlt | ⟨heq, _⟩
      · have : (scaleDen q (exponent p q) : ℚ) <
            ((2 * (scaleNum p (exponent p q) % scaleDen q (exponent p q)) : Nat) : ℚ) := by
          exact_mod_cast hlt
        push_cast at this
        linarith
      · have : ((2 * (scaleNum p (exponent p q) % scaleDen q (exponent p q)) : Nat) : ℚ) =
            (scaleDen q (exponent p q) : ℚ) := by exact_mod_cast heq
        push_cast at this
        linarith
    push_cast
    exact hupper h2
  · have h2 : 2 * ((scaleNum p (exponent p q) % scaleDen q (exponent p q) : Nat) : ℚ) ≤
        (scaleDen q (exponent p q) : ℚ) := by
      have hnot : ¬ scaleDen q (exponent p q) <
          2 * (scaleNum p (exponent p q) % scaleDen q (exponent p q)) := fun h => hup (Or.inl h)
      have := not_lt.mp hnot
      exact_mod_cast this
    exact hlower h2

/-- The rounded value of a fraction of naturals is not negative. -/
theorem round_nonneg (p q : Nat) : 0 ≤ round p q := by
  unfold round
  positivity

/-- Zero rounds to zero. -/
theorem round_zero (q : Nat) (hq : 0 < q) : round 0 q = 0 := by
  have hd := scaleDen_pos q (exponent 0 q) hq
  have hn : scaleNum 0 (exponent 0 q) = 0 := by
    unfold scaleNum
    split_ifs <;> simp
  have hs : significand 0 q = 0 := by
    unfold significand
    simp only [hn, Nat.zero_div, Nat.zero_mod, Nat.mul_zero]
    rw [if_neg]
    rintro (h | ⟨h, _⟩)
    · exact absurd h (Nat.not_lt_zero _)
    · omega
  unfold round
  rw [hs]
  simp

/-- The significand of a positive value has 53 bits. -/
theorem significand_lower (p q : Nat) (hp : 0 < p) (hq : 0 < q) :
    2 ^ 52 ≤ significand p q := by
  have hd := scaleDen_pos q (exponent p q) hq
  have hlow := exponent_lower p q hp hq
  have hm : 2 ^ 52 ≤ scaleNum p (exponent p q) / scaleDen q (exponent p q) :=
    (Nat.le_div_iff_mul_le hd).mpr hlow
  unfold significand
  simp only
  split_ifs <;> omega

/-- The rounded value is within half a unit in the last place of `p / q`:
the relative error is at most `2 ^ -53`. -/
theorem round_error (p q : Nat) (hp : 0 < p) (hq : 0 < q) :
    |round p q - (p : ℚ) / (q : ℚ)| ≤ (p : ℚ) / (q : ℚ) / 2 ^ 53 := by
  have hd := scaleDen_pos q (exponent p q) hq
  have hd' : (0 : ℚ) < (scaleDen q (exponent p q) : ℚ) := by exact_mod_cast hd
  have hlow := exponent_lower p q hp hq
  have hratio := scale_ratio p q (exponent p q)
  have hclose := significand_close p q hq
  have hbig : (2 : ℚ) ^ 52 ≤
      (scaleNum p (exponent p q) : ℚ) / (scaleDen q (exponent p q) : ℚ) := by
    rw [le_div_iff₀ hd']
    exact_mod_cast hlow
  have hz : (0 : ℚ) < (2 : ℚ) ^ (-exponent p q) := by positivity
  have hpq : (p : ℚ) / (q : ℚ) =
      (scaleNum p (exponent p q) : ℚ) / (scaleDen q (exponent p q) : ℚ) *
        (2 : ℚ) ^ (-exponent p q) := by
    rw [hratio, mul_assoc, ← zpow_add₀ (by norm_num : (2 : ℚ) ≠ 0)]
    simp
  unfold round
  rw [hpq, ← sub_mul, abs_mul, abs_of_pos hz, mul_div_right_comm]
  apply mul_le_mul_of_nonneg_right _ hz.le
  calc |(significand p q : ℚ) -
        (scaleNum p (exponent p q) : ℚ) / (scaleDen q (exponent p q) : ℚ)| ≤ 1 / 2 := hclose
    _ = (2 : ℚ) ^ 52 / 2 ^ 53 := by norm_num
    _ ≤ (scaleNum p (exponent p q) : ℚ) / (scaleDen q (exponent p q) : ℚ) / 2 ^ 53 := by
      apply div_le_div_of_nonneg_right hbig (by positivity)

end Float64

namespace Float64

/-- Scaling zero gives zero. -/
theorem scaleNum_zero (k : Int) : scaleNum 0 k = 0 := by
  unfold scaleNum
  split_ifs <;> simp

/-- The scaled numerator of a positive number is positive. -/
theorem scaleNum_pos (p : Nat) (k : Int) (hp : 0 < p) : 0 < scaleNum p k := by
  unfold scaleNum
  split_ifs
  · positivity
  · exact hp

/-- The significand of zero is zero. -/
theorem significand_zero (q : Nat) (hq : 0 < q) : significand 0 q = 0 := by
  have hd := scaleDen_pos q (exponent 0 q) hq
  unfold significand
  simp only [scaleNum_zero, Nat.zero_div, Nat.zero_mod, Nat.mul_zero]
  rw [if_neg]
  rintro (h | ⟨h, _⟩)
  · exact absurd h (Nat.not_lt_zero _)
  · omega

end Float64

open Float64 in
/-- The value line 75 computes from a duration that is not negative: it is not
negative, and it is `ns / 1000000` up to the two roundings, a relative error of
at most `2 ^ -51`. -/
theorem millis_of_nonneg (ns : Int) (h : 0 ≤ ns) :
    ∃ x : ℚ, millis ns = Float64.finite x ∧ 0 ≤ x ∧
      |x - (ns : ℚ) / 1000000| ≤ (ns : ℚ) / 1000000 / 2 ^ 51 := by
  obtain ⟨n, rfl⟩ := Int.eq_ofNat_of_zero_le h
  have hneg : ¬ ((n : Int) < 0) := by omega
  refine ⟨round (scaleNum (significand n 1) (-exponent n 1))
    (scaleDen 1000000 (-exponent n 1)), ?_, round_nonneg _ _, ?_⟩
  · simp only [millis, Int.natAbs_ofNat, hneg, if_false]
  · have hq2 : 0 < scaleDen 1000000 (-exponent n 1) := scaleDen_pos _ _ (by norm_num)
    rcases Nat.eq_zero_or_pos n with h0 | hpos
    · subst h0
      rw [significand_zero 1 (by norm_num), scaleNum_zero, round_zero _ hq2]
      simp
    · have hs := significand_lower n 1 hpos (by norm_num)
      have hspos : 0 < significand n 1 := lt_of_lt_of_le (by norm_num) hs
      have hp2 := scaleNum_pos (significand n 1) (-exponent n 1) hspos
      have e1 := round_error n 1 hpos (by norm_num)
      have e2 := round_error _ _ hp2 hq2
      have hr := scale_ratio (significand n 1) 1000000 (-exponent n 1)
      have ha : round n 1 = (significand n 1 : ℚ) * (2 : ℚ) ^ (-exponent n 1) := rfl
      rw [hr] at e2
      have hfrac : ((significand n 1 : ℚ)) / ((1000000 : Nat) : ℚ) * (2 : ℚ) ^ (-exponent n 1) =
          round n 1 / 1000000 := by
        rw [ha]
        push_cast
        ring
      rw [hfrac] at e2
      simp only [Nat.cast_one, div_one] at e1
      have hn0 : (0 : ℚ) < (n : ℚ) := by exact_mod_cast hpos
      rw [abs_le] at e1 e2 ⊢
      obtain ⟨e1l, e1u⟩ := e1
      obtain ⟨e2l, e2u⟩ := e2
      have hcast : (((n : Int) : ℚ)) = (n : ℚ) := by norm_cast
      rw [hcast]
      have ha_up : round n 1 ≤ (n : ℚ) * (1 + 1 / 2 ^ 53) := by linarith
      have ha_nonneg : 0 ≤ round n 1 := round_nonneg _ _
      constructor
      · have : round n 1 / 1000000 / 2 ^ 53 ≤ (n : ℚ) * (1 + 1 / 2 ^ 53) / 1000000 / 2 ^ 53 := by
          apply div_le_div_of_nonneg_right _ (by positivity)
          apply div_le_div_of_nonneg_right ha_up (by positivity)
        nlinarith
      · have : round n 1 / 1000000 / 2 ^ 53 ≤ (n : ℚ) * (1 + 1 / 2 ^ 53) / 1000000 / 2 ^ 53 := by
          apply div_le_div_of_nonneg_right _ (by positivity)
          apply div_le_div_of_nonneg_right ha_up (by positivity)
        nlinarith

/-- The binary logarithm of `n` is the `k` with `2 ^ k ≤ n < 2 ^ (k + 1)`. -/
theorem log2_eq (n k : Nat) (h1 : 2 ^ k ≤ n) (h2 : n < 2 ^ (k + 1)) : Nat.log2 n = k := by
  have hn : n ≠ 0 := by
    have : 0 < 2 ^ k := by positivity
    omega
  have ha : k ≤ Nat.log2 n := (Nat.le_log2 hn).2 h1
  have hb : Nat.log2 n < k + 1 := (Nat.log2_lt hn).2 h2
  omega

/-- 1,500,000 ns come out as exactly 1.5 milliseconds. -/
theorem millis_example : millis 1500000 = Float64.finite (3 / 2) := by
  have l1 : Nat.log2 1 = 0 := log2_eq 1 0 (by norm_num) (by norm_num)
  have l2 : Nat.log2 1500000 = 20 := log2_eq _ _ (by norm_num) (by norm_num)
  have l3 : Nat.log2 6442450944000000 = 52 := log2_eq _ _ (by norm_num) (by norm_num)
  have l4 : Nat.log2 4294967296000000 = 51 := log2_eq _ _ (by norm_num) (by norm_num)
  have e1 : Float64.exponent 1500000 1 = 32 := by
    unfold Float64.exponent
    rw [l1, l2]
    decide
  have s1 : Float64.significand 1500000 1 = 6442450944000000 := by
    unfold Float64.significand
    rw [e1]
    decide
  have n2 : Float64.scaleNum 6442450944000000 (-32) = 6442450944000000 := by decide
  have d2 : Float64.scaleDen 1000000 (-32) = 4294967296000000 := by decide
  have e2 : Float64.exponent 6442450944000000 4294967296000000 = 52 := by
    unfold Float64.exponent
    rw [l3, l4]
    decide
  have s2 : Float64.significand 6442450944000000 4294967296000000 = 6755399441055744 := by
    unfold Float64.significand
    rw [e2]
    decide
  have hn : (1500000 : Int).natAbs = 1500000 := rfl
  simp only [millis, hn, s1, e1, n2, d2, Float64.round, s2, e2]
  norm_num

/-- One nanosecond comes out as the binary64 nearest to 0.000001. -/
theorem millis_one : millis 1 = Float64.finite (4722366482869645 / 2 ^ 72) := by
  have l1 : Nat.log2 1 = 0 := log2_eq 1 0 (by norm_num) (by norm_num)
  have l3 : Nat.log2 4503599627370496 = 52 := log2_eq _ _ (by norm_num) (by norm_num)
  have l4 : Nat.log2 4503599627370496000000 = 71 := log2_eq _ _ (by norm_num) (by norm_num)
  have e1 : Float64.exponent 1 1 = 52 := by
    unfold Float64.exponent
    rw [l1]
    decide
  have s1 : Float64.significand 1 1 = 4503599627370496 := by
    unfold Float64.significand
    rw [e1]
    decide
  have n2 : Float64.scaleNum 4503599627370496 (-52) = 4503599627370496 := by decide
  have d2 : Float64.scaleDen 1000000 (-52) = 4503599627370496000000 := by decide
  have e2 : Float64.exponent 4503599627370496 4503599627370496000000 = 72 := by
    unfold Float64.exponent
    rw [l3, l4]
    decide
  have s2 : Float64.significand 4503599627370496 4503599627370496000000 =
      4722366482869645 := by
    unfold Float64.significand
    rw [e2]
    decide
  have hn : (1 : Int).natAbs = 1 := rfl
  simp only [millis, hn, s1, e1, n2, d2, Float64.round, s2, e2]
  norm_num

/-- A duration measured on a clock that did not go back is not negative. -/
theorem Since_nonneg (s e : Nat) (hle : s ≤ e) : 0 ≤ time.Since s e := by
  unfold time.Since
  omega

/-- A duration within the range of `int64` is the difference of the readings. -/
theorem Since_of_le (s e : Nat) (hle : s ≤ e) (hlt : e - s < 2 ^ 63) :
    time.Since s e = ((e - s : Nat) : Int) := by
  unfold time.Since
  omega

/-! ## Lemmas on the two functions -/

open prometheus

/-- A value found by `List.lookup` is one of the values of the table. -/
theorem lookup_mem_values {α β : Type} [BEq α] (l : List (α × β)) (k : α) (v : β)
    (h : l.lookup k = some v) : v ∈ l.map Prod.snd := by
  induction l with
  | nil => simp [List.lookup] at h
  | cons p rest ih =>
    obtain ⟨a, b⟩ := p
    simp only [List.lookup] at h
    split at h
    · simp only [Option.some.injEq] at h
      simp [h]
    · simp [ih h]

/-- `http.StatusText` gives the empty string or a phrase of the table. -/
theorem StatusText_range (code : Int) :
    http.StatusText code = [] ∨ http.StatusText code ∈ http.statusText.map Prod.snd := by
  unfold http.StatusText
  cases h : http.statusText.lookup code with
  | none => exact Or.inl rfl
  | some text => exact Or.inr (lookup_mem_values _ _ _ h)

/-- Label values of the right number, all valid UTF-8, are accepted. -/
theorem validate_ok (lvs : List GoString) (n : Nat) (hlen : lvs.length = n)
    (hv : ValidLabels lvs) : validateLabelValues lvs n = .ok () := by
  unfold validateLabelValues
  unfold ValidLabels at hv
  simp [hlen, hv]

/-- The state `ServeHTTP` leaves when the chain returns, the label values are
valid UTF-8 and the handle is well formed. -/
theorem ServeHTTP_returned {σ : Type} (t : Timing) (rw : http.ResponseWriter) (r : http.Request)
    (next : HandlerFunc σ) (w : World σ) (rw1 : http.ResponseWriter) (w1 : World σ)
    (h : next rw r (w.elapse t.resolve) = .returned rw1 w1) (hwf : w1.m.WellFormed)
    (hvalid : ValidLabels (recordedLabels rw1 r)) :
    Middleware.ServeHTTP t rw r next w = .returned rw1
      { now := w1.now + t.wrap + t.count + t.lookup + t.observe,
        m := { reqs := w1.m.reqs.Inc (recordedLabels rw1 r),
               latency := w1.m.latency.Observe (recordedLabels rw1 r)
                 (millis (time.Since (w.now + t.resolve)
                   (w1.now + t.wrap + t.count + t.lookup))) },
        app := w1.app } := by
  obtain ⟨h1, h2, h3⟩ := hwf
  have hv1 := validate_ok (recordedLabels rw1 r) w1.m.reqs.desc.variableLabels.length
    (by rw [h1]; rfl) hvalid
  have hv2 := validate_ok (recordedLabels rw1 r) w1.m.latency.desc.variableLabels.length
    (by rw [h2]; rfl) hvalid
  have hub : ∃ ub, w1.m.latency.upperBounds = .ok ub := by
    unfold HistogramVec.builds at h3
    cases hu : w1.m.latency.upperBounds with
    | ok ub => exact ⟨ub, rfl⟩
    | error e => rw [hu] at h3; cases h3
  obtain ⟨ub, hub⟩ := hub
  unfold recordedLabels at hv1 hv2
  unfold Middleware.ServeHTTP
  simp only [h]
  simp only [World.elapse, CounterVec.WithLabelValues, HistogramVec.WithLabelValues, hv1, hv2,
    CounterVec.Inc, HistogramVec.Observe, recordedLabels, HistogramVec.upperBounds] at hub ⊢
  simp only [hub]

/-- When the chain panics, `ServeHTTP` ends as the chain did. -/
theorem ServeHTTP_panicked {σ : Type} (t : Timing) (rw : http.ResponseWriter) (r : http.Request)
    (next : HandlerFunc σ) (w : World σ) (v : String) (rw1 : http.ResponseWriter) (w1 : World σ)
    (h : next rw r (w.elapse t.resolve) = .panicked v rw1 w1) :
    Middleware.ServeHTTP t rw r next w = .panicked v rw1 w1 := by
  simp only [Middleware.ServeHTTP, h]

/-- One `Inc` and one `Observe` at `lvs` record exactly one request at `lvs`. -/
theorem recordsAt_of_returned {σ : Type} (w1 : World σ) (n : Nat) (lvs : List GoString)
    (x : Float64) (a : σ) :
    RecordsAt w1
      { now := n,
        m := { reqs := w1.m.reqs.Inc lvs, latency := w1.m.latency.Observe lvs x },
        app := a } lvs := by
  refine ⟨?_, ?_, ⟨x, ?_⟩, ?_⟩
  · simp [CounterVec.Inc]
  · intro l hl
    simp [CounterVec.Inc, hl]
  · simp [HistogramVec.Observe]
  · intro l hl
    simp [HistogramVec.Observe, hl]

/-- A registration that succeeds appends the collector. -/
theorem Register_ok (reg : Registry) (c : Collector) (reg1 : Registry)
    (h : reg.Register c = .ok reg1) : reg1.collectors = reg.collectors ++ [c] := by
  unfold Registry.Register at h
  split at h
  · cases h
  · split_ifs at h
    cases h
    rfl

/-- The id of a descriptor begins with its name. -/
theorem fqName_eq_of_id_eq (d1 d2 : Desc) (h : d1.id = d2.id) : d1.fqName = d2.fqName := by
  unfold Desc.id at h
  exact (List.cons.inj h).1

/-- A registration is refused exactly when the descriptor carries an error or
a registered series blocks it. -/
theorem Register_error_iff (reg : Registry) (c : Collector) :
    (∃ e, reg.Register c = .error e) ↔
      (c.desc.err ≠ none ∨ ∃ c0 ∈ reg.collectors, Blocks c0 c.desc) := by
  unfold Registry.Register
  cases herr : c.desc.err with
  | some e => simp
  | none =>
    simp only [ne_eq, not_true_eq_false, false_or]
    constructor
    · rintro ⟨e, he⟩
      split_ifs at he with hA hB
      · obtain ⟨c0, h0, hc⟩ := List.any_eq_true.mp hA
        simp only [Bool.and_eq_true, beq_iff_eq, bne_iff_ne, ne_eq] at hc
        exact ⟨c0, h0, hc.1, Or.inl hc.2⟩
      · obtain ⟨c0, h0, hc⟩ := List.any_eq_true.mp hB
        simp only [beq_iff_eq] at hc
        exact ⟨c0, h0, fqName_eq_of_id_eq _ _ hc, Or.inr hc⟩
    · rintro ⟨c0, h0, hname, hdim | hid⟩
      · have hA : (reg.collectors.any (fun c0 =>
            c0.desc.fqName == c.desc.fqName && c0.desc.dimHash != c.desc.dimHash)) = true :=
          List.any_eq_true.mpr ⟨c0, h0, by simp [hname, hdim]⟩
        rw [if_pos hA]
        exact ⟨_, rfl⟩
      · have hB : (reg.collectors.any (fun c0 => c0.desc.id == c.desc.id)) = true :=
          List.any_eq_true.mpr ⟨c0, h0, by simp [hid]⟩
        split_ifs
        · exact ⟨_, rfl⟩
        · exact ⟨_, rfl⟩

/-- A registration is either refused or accepted. -/
theorem Register_cases (reg : Registry) (c : Collector) :
    (∃ e, reg.Register c = .error e) ∨ reg.Register c = .ok { collectors := reg.collectors ++ [c] } := by
  cases h : reg.Register c with
  | error e => exact Or.inl ⟨e, rfl⟩
  | ok reg1 =>
    right
    have := Register_ok reg c reg1 h
    cases reg1
    simp only at this
    rw [this]

/-- A descriptor without error that no registered series blocks is accepted. -/
theorem Register_accepts (reg : Registry) (c : Collector) (herr : c.desc.err = none)
    (h : ∀ c0 ∈ reg.collectors, ¬ Blocks c0 c.desc) :
    reg.Register c = .ok { collectors := reg.collectors ++ [c] } := by
  rcases Register_cases reg c with hfail | hok
  · rcases (Register_error_iff reg c).mp hfail with he | ⟨c0, h0, hb⟩
    · exact absurd herr he
    · exact absurd hb (h c0 h0)
  · exact hok

/-- The descriptor of the counter carries an error exactly when the service
name is not valid UTF-8. -/
theorem reqs_err (name : GoString) (b : List Float64) :
    (freshMiddleware name b).reqs.desc.err = none ↔ utf8.ValidString name = true := by
  have hname : utf8.ValidString reqsName = true := by decide
  simp only [freshMiddleware, NewCounterVec, NewDesc, validateLabelValues, List.insertionSort,
    List.orderedInsert, List.map_cons, List.map_nil, List.length_cons, List.length_nil,
    List.all_cons, List.all_nil, hname, Bool.true_and, Bool.and_true]
  cases hv : utf8.ValidString name <;> simp

/-- The descriptor of the histogram carries an error exactly when the service
name is not valid UTF-8. -/
theorem latency_err (name : GoString) (b : List Float64) :
    (freshMiddleware name b).latency.desc.err = none ↔ utf8.ValidString name = true := by
  have hname : utf8.ValidString latencyName = true := by decide
  simp only [freshMiddleware, NewHistogramVec, NewDesc, validateLabelValues, List.insertionSort,
    List.orderedInsert, List.map_cons, List.map_nil, List.length_cons, List.length_nil,
    List.all_cons, List.all_nil, hname, Bool.true_and, Bool.and_true]
  cases hv : utf8.ValidString name <;> simp

/-- What a successful `NewMiddleware` returns and registers. -/
theorem NewMiddleware_ok (name : GoString) (b : List Float64) (reg : Registry) (m : Middleware)
    (reg1 : Registry) (h : NewMiddleware name b reg = .ok m reg1) :
    m = freshMiddleware name b ∧
      reg1.collectors = reg.collectors ++
        [.counterVec (freshMiddleware name b).reqs, .histogramVec (freshMiddleware name b).latency] := by
  unfold NewMiddleware at h
  simp only at h
  split at h
  · cases h
  · rename_i regA hA
    split at h
    · cases h
    · rename_i regB hB
      cases h
      have h1 := Register_ok _ _ _ hA
      have h2 := Register_ok _ _ _ hB
      refine ⟨rfl, ?_⟩
      rw [h2, h1]
      simp [freshMiddleware]

/-- `NewMiddleware` in terms of its two registrations. -/
theorem NewMiddleware_eq (name : GoString) (b : List Float64) (reg : Registry) :
    NewMiddleware name b reg =
      match reg.Register (.counterVec (freshMiddleware name b).reqs) with
      | .error err => .panicked err reg
      | .ok reg1 =>
        match reg1.Register (.histogramVec (freshMiddleware name b).latency) with
        | .error err => .panicked err reg1
        | .ok reg2 => .ok (freshMiddleware name b) reg2 := by
  rfl

/-- `NewMiddleware` panics exactly when the service name is not valid UTF-8 or
a registered series blocks one of its two descriptors. -/
theorem NewMiddleware_panics_iff (name : GoString) (b : List Float64) (reg : Registry) :
    (∃ e r, NewMiddleware name b reg = .panicked e r) ↔
      (utf8.ValidString name = false ∨
        ∃ c ∈ reg.collectors, Blocks c (freshMiddleware name b).reqs.desc ∨
          Blocks c (freshMiddleware name b).latency.desc) := by
  have hn : reqsName ≠ latencyName := by decide
  rw [NewMiddleware_eq]
  constructor
  · rintro ⟨e, r, h⟩
    rcases Register_cases reg (.counterVec (freshMiddleware name b).reqs) with hA | hA
    · rcases (Register_error_iff _ _).mp hA with herr | ⟨c0, h0, hb⟩
      · left
        have := (reqs_err name b).not.mp herr
        simpa using this
      · exact Or.inr ⟨c0, h0, Or.inl hb⟩
    · rw [hA] at h
      simp only at h
      rcases Register_cases { collectors := reg.collectors ++
          [.counterVec (freshMiddleware name b).reqs] }
          (.histogramVec (freshMiddleware name b).latency) with hB | hB
      · rcases (Register_error_iff _ _).mp hB with herr | ⟨c0, h0, hb⟩
        · left
          have := (latency_err name b).not.mp herr
          simpa using this
        · simp only [List.mem_append, List.mem_singleton] at h0
          rcases h0 with h0 | h0
          · exact Or.inr ⟨c0, h0, Or.inr hb⟩
          · subst h0
            exact absurd hb.1 hn
      · rw [hB] at h
        cases h
  · intro hcases
    rcases Register_cases reg (.counterVec (freshMiddleware name b).reqs) with hA | hA
    · obtain ⟨e, he⟩ := hA
      rw [he]
      exact ⟨_, _, rfl⟩
    · rw [hA]
      simp only
      have hB : ∃ e, Registry.Register { collectors := reg.collectors ++
          [.counterVec (freshMiddleware name b).reqs] }
          (.histogramVec (freshMiddleware name b).latency) = .error e := by
        rw [Register_error_iff]
        rcases hcases with hbad | ⟨c, hc, hb | hb⟩
        · left
          intro herr
          have := (latency_err name b).mp herr
          rw [hbad] at this
          cases this
        · exfalso
          have : ∃ e, reg.Register (.counterVec (freshMiddleware name b).reqs) = .error e :=
            (Register_error_iff _ _).mpr (Or.inr ⟨c, hc, hb⟩)
          obtain ⟨e, he⟩ := this
          rw [he] at hA
          cases hA
        · exact Or.inr ⟨c, by simp [hc], hb⟩
      obtain ⟨e, he⟩ := hB
      rw [he]
      exact ⟨_, _, rfl⟩

/-- `NewMiddleware` returns its handle when the service name is valid UTF-8 and
no registered series blocks its two descriptors. -/
theorem NewMiddleware_returns (name : GoString) (b : List Float64) (reg : Registry)
    (hname : utf8.ValidString name = true)
    (h : ∀ c ∈ reg.collectors, ¬ Blocks c (freshMiddleware name b).reqs.desc ∧
      ¬ Blocks c (freshMiddleware name b).latency.desc) :
    NewMiddleware name b reg = .ok (freshMiddleware name b)
      { collectors := reg.collectors ++
          [.counterVec (freshMiddleware name b).reqs,
           .histogramVec (freshMiddleware name b).latency] } := by
  have hn : reqsName ≠ latencyName := by decide
  have hA := Register_accepts reg (.counterVec (freshMiddleware name b).reqs)
    ((reqs_err name b).mpr hname) (fun c hc => (h c hc).1)
  have hB := Register_accepts
    { collectors := reg.collectors ++ [.counterVec (freshMiddleware name b).reqs] }
    (.histogramVec (freshMiddleware name b).latency) ((latency_err name b).mpr hname) (by
      intro c hc
      simp only [List.mem_append, List.mem_singleton] at hc
      rcases hc with hc | hc
      · exact (h c hc).2
      · subst hc
        exact fun hb => hn hb.1)
  rw [NewMiddleware_eq, hA]
  simp only
  rw [hB]
  simp

/-- An increasing list whose last boundary is not `+Inf` is kept as it is. -/
theorem checkBuckets_increasing (b : List Float64) (h : Increasing b)
    (hlast : b.getLast? ≠ some Float64.posInf) : checkBuckets b = .ok b := by
  induction b with
  | nil => rfl
  | cons x rest ih =>
    cases rest with
    | nil =>
      simp only [List.getLast?_singleton, ne_eq, Option.some.injEq] at hlast
      simp [checkBuckets, hlast]
    | cons y rest =>
      obtain ⟨hxy, hrest⟩ := h
      have hl : (y :: rest).getLast? ≠ some Float64.posInf := by
        rw [List.getLast?_cons_cons] at hlast
        exact hlast
      simp [checkBuckets, hxy, ih hrest hl]

/-- A last boundary `+Inf` of an increasing list is dropped. -/
theorem checkBuckets_dropInf (b : List Float64) (h : Increasing (b ++ [Float64.posInf])) :
    checkBuckets (b ++ [Float64.posInf]) = .ok b := by
  induction b with
  | nil => rfl
  | cons x rest ih =>
    cases rest with
    | nil =>
      obtain ⟨hxy, _⟩ := h
      simp only [List.cons_append, List.nil_append] at hxy ⊢
      simp [checkBuckets, hxy]
    | cons y rest =>
      obtain ⟨hxy, hrest⟩ := h
      have := ih hrest
      simp only [List.cons_append] at this ⊢
      simp [checkBuckets, hxy, this]

/-- A list that is not increasing is refused. -/
theorem checkBuckets_error (b : List Float64) (h : ¬ Increasing b) :
    ∃ e, checkBuckets b = .error e := by
  induction b with
  | nil => exact absurd trivial h
  | cons x rest ih =>
    cases rest with
    | nil => exact absurd trivial h
    | cons y rest =>
      by_cases hxy : x.ge y = true
      · exact ⟨"histogram buckets must be in increasing order", by simp [checkBuckets, hxy]⟩
      · have hxy' : x.ge y = false := by simpa using hxy
        have hrest : ¬ Increasing (y :: rest) := fun hr => h ⟨hxy', hr⟩
        obtain ⟨e, he⟩ := ih hrest
        exact ⟨e, by simp [checkBuckets, hxy', he]⟩

/-- The upper bounds of the histogram that `NewMiddleware` builds. -/
theorem fresh_upperBounds (name : GoString) (b : List Float64) :
    (freshMiddleware name b).latency.upperBounds =
      checkBuckets (if b = [] then dflBuckets else b) := by
  have h1 : ([str "code", str "method", str "path"] : List GoString).contains bucketLabel = false := by
    decide
  have h2 : ([str "service"] : List GoString).contains bucketLabel = false := by decide
  unfold HistogramVec.upperBounds
  simp only [freshMiddleware, NewHistogramVec, NewDesc, List.map_cons, List.map_nil, h1, h2,
    Bool.or_self, Bool.false_eq_true, if_false]
  by_cases hb : b = []
  · subst hb
    rfl
  · have hlen : b.length ≠ 0 := fun e => hb (List.length_eq_zero.mp e)
    simp [hlen, hb]

/-- The label names of the two descriptors `NewMiddleware` builds. -/
theorem fresh_labelNames (name : GoString) (b : List Float64) :
    (freshMiddleware name b).reqs.desc.labelNames =
        [str "service", str "$code", str "$method", str "$path"] ∧
      (freshMiddleware name b).latency.desc.labelNames =
        [str "service", str "$code", str "$method", str "$path"] := by
  have e : ([str "service", str "$" ++ str "code", str "$" ++ str "method",
      str "$" ++ str "path"] : List GoString) =
      [str "service", str "$code", str "$method", str "$path"] := by decide
  exact ⟨e, e⟩

/-- Descriptors with the same `dimHash` have the same label names, up to order. -/
theorem perm_of_dimHash_eq (d1 d2 : Desc) (h : d1.dimHash = d2.dimHash) :
    List.Perm d1.labelNames d2.labelNames := by
  unfold Desc.dimHash at h
  have h2 := (List.cons.inj h).2
  have p1 := List.perm_insertionSort (fun a b => GoString.lt b a = false) d1.labelNames
  have p2 := List.perm_insertionSort (fun a b => GoString.lt b a = false) d2.labelNames
  rw [h2] at p1
  exact p1.symm.trans p2

/-- A series with no constant label has not the label names of the package. -/
theorem not_perm_of_no_constLabels (d : Desc) (h : d.constLabels = []) :
    ¬ List.Perm d.labelNames [str "service", str "$code", str "$method", str "$path"] := by
  intro hp
  have hmem : str "service" ∈ d.labelNames := hp.symm.subset (by simp)
  unfold Desc.labelNames at hmem
  rw [h] at hmem
  simp only [List.map_nil, List.nil_append, List.mem_map] at hmem
  obtain ⟨n, _, hn⟩ := hmem
  have hhead : (str "$" ++ n).head? = (str "service").head? := by rw [hn]
  have h1 : (str "$" ++ n).head? = some 36 := rfl
  have h2 : (str "service").head? = some 115 := rfl
  rw [h1, h2] at hhead
  exact absurd hhead (by decide)

/-- C1: the status the chain wrote never reaches the label.  The wrapper of
line 73 is made after `next` has run, so its `Status()` is 0 and the code
label is `http.StatusText(0)`, the empty string, for every request: in the
scenario (a `GET` of `/orders/42` matched by `/orders/:id`, the handler
writes 404) the request is counted under `("", "GET", "/orders/:id")` and
nothing is recorded under `"Not Found"`, the text of 404, nor under
`"404 Not Found"`. -/
theorem C1_status_not_recorded :
    (∃ w2, Middleware.ServeHTTP noTime freshSink scenarioRequest (writeStatus 404 1500000)
        scenarioWorld = .returned (freshSink.WriteHeader 404) w2 ∧
      (freshSink.WriteHeader 404).status = 404 ∧
      w2.m.reqs.values [str "", str "GET", str "/orders/:id"] = 1 ∧
      w2.m.reqs.values [str "Not Found", str "GET", str "/orders/:id"] = 0 ∧
      w2.m.latency.observations [str "Not Found", str "GET", str "/orders/:id"] = [] ∧
      w2.m.reqs.values [str "404 Not Found", str "GET", str "/orders/:id"] = 0 ∧
      w2.m.latency.observations [str "404 Not Found", str "GET", str "/orders/:id"] = []) ∧
    (∀ rw r, (recordedLabels rw r).head? = some (str "")) ∧
    http.StatusText 404 = str "Not Found" :=
  ⟨⟨_, rfl, by decide, by decide, by decide, by decide, by decide, by decide⟩,
    fun _ _ => rfl, by decide⟩

/-- C2: when the chain returns on a well-formed handle and the label values
are valid UTF-8, the request is recorded under a label tuple whose path label
is the string stored under `MatchedRoutePathKey` when the context holds one
(and then no tuple with the raw URL path changes, if the two differ), and is
`r.URL.Path` when the context holds nothing under that key. -/
theorem C2_path_label {σ : Type} (t : Timing) (rw : http.ResponseWriter) (r : http.Request)
    (next : HandlerFunc σ) (w : World σ) (rw1 : http.ResponseWriter) (w1 : World σ)
    (h : next rw r (w.elapse t.resolve) = .returned rw1 w1) (hwf : w1.m.WellFormed)
    (hvalid : ValidLabels (recordedLabels rw1 r)) :
    ∃ w2, Middleware.ServeHTTP t rw r next w = .returned rw1 w2 ∧
      (∀ p, r.ctx.Value MatchedRoutePathKey = some (context.Value.string p) →
        (∃ code, RecordsAt w1 w2 [code, r.Method, p]) ∧
        (p ≠ r.URL.Path → ∀ code method,
          w2.m.reqs.values [code, method, r.URL.Path] =
            w1.m.reqs.values [code, method, r.URL.Path] ∧
          w2.m.latency.observations [code, method, r.URL.Path] =
            w1.m.latency.observations [code, method, r.URL.Path])) ∧
      (r.ctx.Value MatchedRoutePathKey = none →
        ∃ code, RecordsAt w1 w2 [code, r.Method, r.URL.Path]) := by
  refine ⟨_, ServeHTTP_returned t rw r next w rw1 w1 h hwf hvalid, ?_, ?_⟩
  · intro p hp
    have hl : recordedLabels rw1 r =
        [http.StatusText (negroni.NewResponseWriter rw1).Status, r.Method, p] := by
      simp only [recordedLabels, hp]
    have hrec := recordsAt_of_returned w1
      (w1.now + t.wrap + t.count + t.lookup + t.observe) (recordedLabels rw1 r)
      (millis (time.Since (w.now + t.resolve) (w1.now + t.wrap + t.count + t.lookup))) w1.app
    rw [hl] at hrec ⊢
    refine ⟨⟨_, hrec⟩, ?_⟩
    intro hne code method
    have hdiff : [code, method, r.URL.Path] ≠
        [http.StatusText (negroni.NewResponseWriter rw1).Status, r.Method, p] := by
      intro e
      simp only [List.cons.injEq, and_true] at e
      exact hne e.2.2.symm
    exact ⟨hrec.2.1 _ hdiff, hrec.2.2.2 _ hdiff⟩
  · intro hp
    have hl : recordedLabels rw1 r =
        [http.StatusText (negroni.NewResponseWriter rw1).Status, r.Method, r.URL.Path] := by
      simp only [recordedLabels, hp]
    rw [hl]
    exact ⟨_, recordsAt_of_returned _ _ _ _ _⟩

/-- C2, the theorem at two requests: one matched by `/orders/:id`, recorded
under that pattern; one with no match, recorded under its raw path. -/
theorem C2_path_label_witness :
    (∃ w2, Middleware.ServeHTTP noTime freshSink scenarioRequest (writeStatus 200 7)
        scenarioWorld = .returned (freshSink.WriteHeader 200) w2 ∧
      ∃ code, RecordsAt (scenarioWorld.elapse 7) w2 [code, str "GET", str "/orders/:id"]) ∧
    (∃ w2, Middleware.ServeHTTP noTime freshSink (rawRequest (str "GET") (str "/orders/42"))
        (writeStatus 200 7) scenarioWorld = .returned (freshSink.WriteHeader 200) w2 ∧
      ∃ code, RecordsAt (scenarioWorld.elapse 7) w2 [code, str "GET", str "/orders/42"]) := by
  constructor
  · obtain ⟨w2, hserve, hmatch, _⟩ := C2_path_label noTime freshSink scenarioRequest
      (writeStatus 200 7) scenarioWorld (freshSink.WriteHeader 200)
      (scenarioWorld.elapse 7) rfl (by decide) (by decide)
    exact ⟨w2, hserve, (hmatch (str "/orders/:id") rfl).1⟩
  · obtain ⟨w2, hserve, _, hraw⟩ := C2_path_label noTime freshSink
      (rawRequest (str "GET") (str "/orders/42"))
      (writeStatus 200 7) scenarioWorld (freshSink.WriteHeader 200)
      (scenarioWorld.elapse 7) rfl (by decide) (by decide)
    exact ⟨w2, hserve, hraw rfl⟩

/-- C4 (as amended): the histogram of a handle that `NewMiddleware` returned has
the boundaries `[300, 1200, 5000]` if no bucket was given; for a non-empty
list `b` in increasing order whose last boundary is not `+Inf` it has exactly
the boundaries `b`; a last boundary `+Inf` is dropped; and for a list that is
not in increasing order `NewMiddleware` returns a handle whose histogram has
no boundaries at all: no child can be built, every `WithLabelValues` on it
panics.  With a service name that is valid UTF-8, in a process with no series
of the two names registered, `NewMiddleware` does return. -/
theorem C4_buckets (name : GoString) :
    (∀ reg m reg1, NewMiddleware name [] reg = .ok m reg1 →
      m.latency.upperBounds = .ok [300, 1200, 5000]) ∧
    (∀ b reg m reg1, NewMiddleware name b reg = .ok m reg1 → b ≠ [] → Increasing b →
      b.getLast? ≠ some Float64.posInf → m.latency.upperBounds = .ok b) ∧
    (∀ b reg m reg1, NewMiddleware name (b ++ [Float64.posInf]) reg = .ok m reg1 →
      Increasing (b ++ [Float64.posInf]) → m.latency.upperBounds = .ok b) ∧
    (∀ b reg m reg1, NewMiddleware name b reg = .ok m reg1 → ¬ Increasing b →
      (∃ e, m.latency.upperBounds = .error e) ∧
      ∀ lvs, ∃ e, m.latency.WithLabelValues lvs = .error e) ∧
    (∀ b reg, utf8.ValidString name = true →
      (∀ c ∈ reg.collectors, c.desc.fqName ≠ str "negroni_requests_total" ∧
        c.desc.fqName ≠ str "negroni_request_duration_milliseconds") →
      ∃ m reg1, NewMiddleware name b reg = .ok m reg1 ∧
        reg1.collectors = reg.collectors ++ [.counterVec m.reqs, .histogramVec m.latency]) := by
  refine ⟨?_, ?_, ?_, ?_, ?_⟩
  · intro reg m reg1 h
    rw [(NewMiddleware_ok name [] reg m reg1 h).1, fresh_upperBounds]
    rfl
  · intro b reg m reg1 h hb hinc hlast
    rw [(NewMiddleware_ok name b reg m reg1 h).1, fresh_upperBounds, if_neg hb]
    exact checkBuckets_increasing b hinc hlast
  · intro b reg m reg1 h hinc
    rw [(NewMiddleware_ok name _ reg m reg1 h).1, fresh_upperBounds,
      if_neg (by simp : b ++ [Float64.posInf] ≠ [])]
    exact checkBuckets_dropInf b hinc
  · intro b reg m reg1 h hinc
    have hb : b ≠ [] := by
      rintro rfl
      exact hinc trivial
    rw [(NewMiddleware_ok name b reg m reg1 h).1]
    have hub : ∃ e, (freshMiddleware name b).latency.upperBounds = .error e := by
      rw [fresh_upperBounds, if_neg hb]
      exact checkBuckets_error b hinc
    refine ⟨hub, fun lvs => ?_⟩
    obtain ⟨e, he⟩ := hub
    unfold HistogramVec.WithLabelValues
    cases validateLabelValues lvs (freshMiddleware name b).latency.desc.variableLabels.length with
    | error e2 => exact ⟨e2, rfl⟩
    | ok u =>
      simp only [he]
      exact ⟨e, rfl⟩
  · intro b reg hname hfresh
    refine ⟨_, _, NewMiddleware_returns name b reg hname ?_, rfl⟩
    intro c hc
    exact ⟨fun hb => (hfresh c hc).1 hb.1, fun hb => (hfresh c hc).2 hb.1⟩

/-- C4, the theorem at the two calls of the claim, in a fresh process: no
buckets gives `[300, 1200, 5000]`, and `50, 100` gives `[50, 100]`. -/
theorem C4_buckets_witness :
    (∃ m reg1, NewMiddleware (str "orders") [] emptyRegistry = .ok m reg1 ∧
      m.latency.upperBounds = .ok [300, 1200, 5000]) ∧
    (∃ m reg1, NewMiddleware (str "orders") [50, 100] emptyRegistry = .ok m reg1 ∧
      m.latency.upperBounds = .ok [50, 100]) := by
  constructor
  · obtain ⟨m, reg1, h, _⟩ := (C4_buckets (str "orders")).2.2.2.2 [] emptyRegistry (by decide)
      (fun c hc => absurd hc (List.not_mem_nil c))
    exact ⟨m, reg1, h, (C4_buckets (str "orders")).1 _ _ _ h⟩
  · obtain ⟨m, reg1, h, _⟩ := (C4_buckets (str "orders")).2.2.2.2 [50, 100] emptyRegistry
      (by decide) (fun c hc => absurd hc (List.not_mem_nil c))
    exact ⟨m, reg1, h, (C4_buckets (str "orders")).2.1 [50, 100] _ _ _ h (by decide)
      ⟨by decide, trivial⟩ (by decide)⟩

/-- C4, the claim as written fails: with the buckets `1, +Inf` the histogram of
the handle has the one boundary `1`, and with the buckets `100, 50` it has
none: no child of it can be built. -/
theorem C4_counterexample :
    NewMiddleware (str "orders") [1, Float64.posInf] emptyRegistry =
      .ok (freshMiddleware (str "orders") [1, Float64.posInf])
        { collectors := [.counterVec (freshMiddleware (str "orders") [1, Float64.posInf]).reqs,
            .histogramVec (freshMiddleware (str "orders") [1, Float64.posInf]).latency] } ∧
    (freshMiddleware (str "orders") [1, Float64.posInf]).latency.upperBounds = .ok [1] ∧
    ([1] : List Float64) ≠ [1, Float64.posInf] ∧
    NewMiddleware (str "orders") [100, 50] emptyRegistry =
      .ok (freshMiddleware (str "orders") [100, 50])
        { collectors := [.counterVec (freshMiddleware (str "orders") [100, 50]).reqs,
            .histogramVec (freshMiddleware (str "orders") [100, 50]).latency] } ∧
    (freshMiddleware (str "orders") [100, 50]).latency.upperBounds =
      .error "histogram buckets must be in increasing order" :=
  ⟨rfl, rfl, by decide, rfl, rfl⟩

/-- C5 (as amended): `NewMiddleware name` panics, and returns no handle,
exactly when `name` is not valid UTF-8 or a registered series blocks one of
its two descriptors: a series of the same name that has another help text or
other label names, or that has the same constant label values.  So it panics
when a series named `negroni_requests_total` or
`negroni_request_duration_milliseconds` is registered with another help
text, with other label names, without constant label, or with the constant
label `service = name`; and a second call with the same service name, after
a first that succeeded, panics.  A call with another service name that is
valid UTF-8, after one that succeeded in a fresh process, returns a handle. -/
theorem C5_collisions (name : GoString) (b : List Float64) :
    (∀ reg, (∃ e r, NewMiddleware name b reg = .panicked e r) ↔
      (utf8.ValidString name = false ∨
        ∃ c ∈ reg.collectors, Blocks c (freshMiddleware name b).reqs.desc ∨
          Blocks c (freshMiddleware name b).latency.desc)) ∧
    (∀ reg c, c ∈ reg.collectors →
      (c.desc.fqName = str "negroni_requests_total" ∧
          c.desc.help ≠ str "How many HTTP requests processed, partitioned by status code, method and HTTP path.") ∨
        (c.desc.fqName = str "negroni_request_duration_milliseconds" ∧
          c.desc.help ≠ str "How long it took to process the request, partitioned by status code, method and HTTP path.") →
      ∃ e r, NewMiddleware name b reg = .panicked e r) ∧
    (∀ reg c, c ∈ reg.collectors →
      (c.desc.fqName = str "negroni_requests_total" ∨
        c.desc.fqName = str "negroni_request_duration_milliseconds") →
      ¬ List.Perm c.desc.labelNames [str "service", str "$code", str "$method", str "$path"] →
      ∃ e r, NewMiddleware name b reg = .panicked e r) ∧
    (∀ reg c, c ∈ reg.collectors →
      (c.desc.fqName = str "negroni_requests_total" ∨
        c.desc.fqName = str "negroni_request_duration_milliseconds") →
      c.desc.constLabels = [] →
      ∃ e r, NewMiddleware name b reg = .panicked e r) ∧
    (∀ reg c, c ∈ reg.collectors →
      (c.desc.fqName = str "negroni_requests_total" ∨
        c.desc.fqName = str "negroni_request_duration_milliseconds") →
      c.desc.constLabels = [(str "service", name)] →
      ∃ e r, NewMiddleware name b reg = .panicked e r) ∧
    (∀ reg m reg1 b2, NewMiddleware name b reg = .ok m reg1 →
      ∃ e r, NewMiddleware name b2 reg1 = .panicked e r) ∧
    (∀ other b2 m reg1, utf8.ValidString other = true → other ≠ name →
      NewMiddleware name b emptyRegistry = .ok m reg1 →
      ∃ m2 reg2, NewMiddleware other b2 reg1 = .ok m2 reg2) := by
  have hperm : ∀ reg c, c ∈ reg.collectors →
      (c.desc.fqName = str "negroni_requests_total" ∨
        c.desc.fqName = str "negroni_request_duration_milliseconds") →
      ¬ List.Perm c.desc.labelNames [str "service", str "$code", str "$method", str "$path"] →
      ∃ e r, NewMiddleware name b reg = .panicked e r := by
    intro reg c hc hname hnp
    refine (NewMiddleware_panics_iff name b reg).mpr (Or.inr ⟨c, hc, ?_⟩)
    rcases hname with hname | hname
    · refine Or.inl ⟨hname, Or.inl fun hd => hnp ?_⟩
      have := perm_of_dimHash_eq _ _ hd
      rw [(fresh_labelNames name b).1] at this
      exact this
    · refine Or.inr ⟨hname, Or.inl fun hd => hnp ?_⟩
      have := perm_of_dimHash_eq _ _ hd
      rw [(fresh_labelNames name b).2] at this
      exact this
  refine ⟨NewMiddleware_panics_iff name b, ?_, hperm, ?_, ?_, ?_, ?_⟩
  · intro reg c hc hcase
    refine (NewMiddleware_panics_iff name b reg).mpr (Or.inr ⟨c, hc, ?_⟩)
    rcases hcase with ⟨hname, hhelp⟩ | ⟨hname, hhelp⟩
    · exact Or.inl ⟨hname, Or.inl fun hd => hhelp (List.cons.inj hd).1⟩
    · exact Or.inr ⟨hname, Or.inl fun hd => hhelp (List.cons.inj hd).1⟩
  · intro reg c hc hname hnone
    exact hperm reg c hc hname (not_perm_of_no_constLabels _ hnone)
  · intro reg c hc hname hlabels
    refine (NewMiddleware_panics_iff name b reg).mpr (Or.inr ⟨c, hc, ?_⟩)
    rcases hname with hname | hname
    · refine Or.inl ⟨hname, Or.inr ?_⟩
      simp only [Desc.id, hname, hlabels]
      rfl
    · refine Or.inr ⟨hname, Or.inr ?_⟩
      simp only [Desc.id, hname, hlabels]
      rfl
  · intro reg m reg1 b2 h
    obtain ⟨_, hreg⟩ := NewMiddleware_ok name b reg m reg1 h
    refine (NewMiddleware_panics_iff name b2 reg1).mpr
      (Or.inr ⟨.counterVec (freshMiddleware name b).reqs, ?_, Or.inl ⟨rfl, Or.inr rfl⟩⟩)
    rw [hreg]
    simp
  · intro other b2 m reg1 hvalid hne h
    obtain ⟨_, hreg⟩ := NewMiddleware_ok name b emptyRegistry m reg1 h
    have hne2 : ¬ name = other := fun e => hne e.symm
    have hn1 : latencyName ≠ reqsName := by decide
    have hn2 : reqsName ≠ latencyName := by decide
    refine ⟨_, _, NewMiddleware_returns other b2 reg1 hvalid ?_⟩
    intro c hc
    rw [hreg] at hc
    simp only [emptyRegistry, List.nil_append, List.mem_cons, List.mem_singleton,
      List.not_mem_nil, or_false] at hc
    rcases hc with hc | hc
    · subst hc
      refine ⟨?_, fun hb => hn2 hb.1⟩
      rintro ⟨_, hd | hid⟩
      · exact hd rfl
      · simp [Desc.id, Collector.desc, freshMiddleware, NewCounterVec, NewDesc, hne2] at hid
    · subst hc
      refine ⟨fun hb => hn1 hb.1, ?_⟩
      rintro ⟨_, hd | hid⟩
      · exact hd rfl
      · simp [Desc.id, Collector.desc, freshMiddleware, NewHistogramVec, NewDesc, hne2] at hid

/-- C5, the theorem in a fresh process: after `NewMiddleware "orders"` has
succeeded, a second `NewMiddleware "orders"` panics. -/
theorem C5_collisions_witness :
    NewMiddleware (str "orders") [] emptyRegistry =
      .ok (freshMiddleware (str "orders") [])
        { collectors := [.counterVec (freshMiddleware (str "orders") []).reqs,
            .histogramVec (freshMiddleware (str "orders") []).latency] } ∧
    ∃ err reg2, NewMiddleware (str "orders") [50, 100]
      { collectors := [.counterVec (freshMiddleware (str "orders") []).reqs,
          .histogramVec (freshMiddleware (str "orders") []).latency] } = .panicked err reg2 :=
  ⟨rfl, (C5_collisions (str "orders") []).2.2.2.2.2.1 emptyRegistry _ _ [50, 100] rfl⟩

/-- C5, the claim as written fails: in a fresh process `NewMiddleware "a"`
succeeds and registers a series named `negroni_requests_total`; a second call,
`NewMiddleware "b"`, then returns a handle too. -/
theorem C5_counterexample :
    NewMiddleware (str "a") [] emptyRegistry =
      .ok (freshMiddleware (str "a") [])
        { collectors := [.counterVec (freshMiddleware (str "a") []).reqs,
            .histogramVec (freshMiddleware (str "a") []).latency] } ∧
    (freshMiddleware (str "a") []).reqs.desc.fqName = str "negroni_requests_total" ∧
    (freshMiddleware (str "a") []).latency.desc.fqName =
      str "negroni_request_duration_milliseconds" ∧
    NewMiddleware (str "b") []
        { collectors := [.counterVec (freshMiddleware (str "a") []).reqs,
            .histogramVec (freshMiddleware (str "a") []).latency] } =
      .ok (freshMiddleware (str "b") [])
        { collectors := [.counterVec (freshMiddleware (str "a") []).reqs,
            .histogramVec (freshMiddleware (str "a") []).latency,
            .counterVec (freshMiddleware (str "b") []).reqs,
            .histogramVec (freshMiddleware (str "b") []).latency] } :=
  ⟨rfl, rfl, rfl, rfl⟩

/-- C6: a call of `NewMiddleware` that returns a handle has added to the
registry exactly two series, those of the handle: a counter named
`negroni_requests_total` and a histogram named
`negroni_request_duration_milliseconds`, each with the variable labels
`code`, `method`, `path` in that order and the one constant label
`service = name`. -/
theorem C6_registers_two_series (name : GoString) (b : List Float64) (reg : Registry)
    (m : Middleware) (reg1 : Registry) (h : NewMiddleware name b reg = .ok m reg1) :
    reg1.collectors = reg.collectors ++ [.counterVec m.reqs, .histogramVec m.latency] ∧
    m.reqs.desc.fqName = str "negroni_requests_total" ∧
    m.reqs.desc.variableLabels = [str "code", str "method", str "path"] ∧
    m.reqs.desc.constLabels = [(str "service", name)] ∧
    m.latency.desc.fqName = str "negroni_request_duration_milliseconds" ∧
    m.latency.desc.variableLabels = [str "code", str "method", str "path"] ∧
    m.latency.desc.constLabels = [(str "service", name)] := by
  obtain ⟨hm, hreg⟩ := NewMiddleware_ok name b reg m reg1 h
  subst hm
  exact ⟨hreg, rfl, rfl, rfl, rfl, rfl, rfl⟩

/-- C6, the theorem in a fresh process, for the service `orders`. -/
theorem C6_registers_two_series_witness :
    NewMiddleware (str "orders") [] emptyRegistry =
      .ok (freshMiddleware (str "orders") [])
        { collectors := [.counterVec (freshMiddleware (str "orders") []).reqs,
            .histogramVec (freshMiddleware (str "orders") []).latency] } ∧
    (freshMiddleware (str "orders") []).reqs.desc.constLabels = [(str "service", str "orders")] ∧
    (freshMiddleware (str "orders") []).latency.desc.constLabels =
      [(str "service", str "orders")] :=
  ⟨rfl,
    (C6_registers_two_series (str "orders") [] emptyRegistry _ _ rfl).2.2.2.1,
    (C6_registers_two_series (str "orders") [] emptyRegistry _ _ rfl).2.2.2.2.2.2⟩

/-- C8: when the chain panics, `ServeHTTP` ends with the same panic, the sink
and the state being exactly as the chain left them: it records nothing.  So
for a chain that does not touch the vectors itself, every counter value and
every list of observations is after the call what it was before. -/
theorem C8_panic_not_recorded {σ : Type} (t : Timing) (rw : http.ResponseWriter)
    (r : http.Request) (next : HandlerFunc σ) (w : World σ) (v : String)
    (rw1 : http.ResponseWriter) (w1 : World σ)
    (h : next rw r (w.elapse t.resolve) = .panicked v rw1 w1) :
    Middleware.ServeHTTP t rw r next w = .panicked v rw1 w1 ∧
      (w1.m = w.m → ∀ lvs,
        (Middleware.ServeHTTP t rw r next w).world.m.reqs.values lvs = w.m.reqs.values lvs ∧
        (Middleware.ServeHTTP t rw r next w).world.m.latency.observations lvs =
          w.m.latency.observations lvs) := by
  have hserve := ServeHTTP_panicked t rw r next w v rw1 w1 h
  refine ⟨hserve, ?_⟩
  intro hm lvs
  rw [hserve]
  simp only [Outcome.world, hm, and_self]

/-- C8, the theorem at a handler that panics after 5 nanoseconds. -/
theorem C8_panic_not_recorded_witness :
    Middleware.ServeHTTP noTime freshSink scenarioRequest (panicWith "boom" 5) scenarioWorld =
        .panicked "boom" freshSink (scenarioWorld.elapse 5) ∧
      ∀ lvs,
        (Middleware.ServeHTTP noTime freshSink scenarioRequest (panicWith "boom" 5)
          scenarioWorld).world.m.reqs.values lvs = 0 ∧
        (Middleware.ServeHTTP noTime freshSink scenarioRequest (panicWith "boom" 5)
          scenarioWorld).world.m.latency.observations lvs = [] := by
  obtain ⟨hserve, hsame⟩ := C8_panic_not_recorded noTime freshSink scenarioRequest
    (panicWith "boom" 5) scenarioWorld "boom" freshSink (scenarioWorld.elapse 5) rfl
  exact ⟨hserve, fun lvs => hsame rfl lvs⟩

/-- C9 (as amended): when the chain returns on a well-formed handle and the
label values are valid UTF-8, the value observed is `float64(e - s) / 1000000`,
where `s` is the clock reading at the call of `next`, after the path was
resolved, and `e` the reading taken once `next` has returned and `ServeHTTP`
has made the wrapper, incremented the counter and looked up the histogram
child.  When the clock did not go back during `next`, the value is not
negative, and when `e - s` fits an `int64` it is `(e - s) / 1000000`
milliseconds up to the rounding of `float64`, a relative error of at most
`2 ^ -51`: it is not cut to whole milliseconds, 1,500,000 ns are observed as
exactly 1.5, and 1 ns as the binary64 nearest to 0.000001.  It leaves out the time of the path resolution before `s` and of `Observe` itself,
and it includes the time of the counter increment. -/
theorem C9_latency_value {σ : Type} (t : Timing) (rw : http.ResponseWriter) (r : http.Request)
    (next : HandlerFunc σ) (w : World σ) (rw1 : http.ResponseWriter) (w1 : World σ)
    (h : next rw r (w.elapse t.resolve) = .returned rw1 w1) (hwf : w1.m.WellFormed)
    (hvalid : ValidLabels (recordedLabels rw1 r)) :
    ∃ w2 x, Middleware.ServeHTTP t rw r next w = .returned rw1 w2 ∧
      w2.m.latency.observations (recordedLabels rw1 r) =
        w1.m.latency.observations (recordedLabels rw1 r) ++ [x] ∧
      x = millis (time.Since (w.elapse t.resolve).now
        (w1.now + t.wrap + t.count + t.lookup)) ∧
      ((w.elapse t.resolve).now ≤ w1.now →
        ∃ q : ℚ, x = Float64.finite q ∧ 0 ≤ q ∧
          (w1.now + t.wrap + t.count + t.lookup < (w.elapse t.resolve).now + 2 ^ 63 →
            |q - (((w1.now : ℚ) - ((w.elapse t.resolve).now : ℚ)) +
                ((t.wrap : ℚ) + (t.count : ℚ) + (t.lookup : ℚ))) / 1000000| ≤
              (((w1.now : ℚ) - ((w.elapse t.resolve).now : ℚ)) +
                ((t.wrap : ℚ) + (t.count : ℚ) + (t.lookup : ℚ))) / 1000000 / 2 ^ 51)) ∧
      millis 1500000 = Float64.finite (3 / 2) ∧
      millis 1 = Float64.finite (4722366482869645 / 2 ^ 72) := by
  refine ⟨_, _, ServeHTTP_returned t rw r next w rw1 w1 h hwf hvalid, ?_, rfl, ?_,
    millis_example, millis_one⟩
  · show (if recordedLabels rw1 r = recordedLabels rw1 r then _ else _) = _
    rw [if_pos rfl]
    rfl
  · intro hmono
    have hle : (w.elapse t.resolve).now ≤ w1.now + t.wrap + t.count + t.lookup := by omega
    obtain ⟨q, hq, h0, hbound⟩ := millis_of_nonneg
      (time.Since (w.elapse t.resolve).now (w1.now + t.wrap + t.count + t.lookup))
      (Since_nonneg _ _ hle)
    refine ⟨q, hq, h0, ?_⟩
    intro hrange
    have hlt : w1.now + t.wrap + t.count + t.lookup - (w.elapse t.resolve).now < 2 ^ 63 := by
      omega
    have hcast : ((time.Since (w.elapse t.resolve).now
        (w1.now + t.wrap + t.count + t.lookup) : Int) : ℚ) =
        ((w1.now : ℚ) - ((w.elapse t.resolve).now : ℚ)) +
          ((t.wrap : ℚ) + (t.count : ℚ) + (t.lookup : ℚ)) := by
      rw [Since_of_le _ _ hle hlt]
      push_cast [Nat.cast_sub hle]
      ring
    rw [hcast] at hbound
    exact hbound

/-- C9, the theorem at the scenario: the handler takes 1,500,000 ns, the steps
of `ServeHTTP` none, and the one observation is 1.5 milliseconds. -/
theorem C9_latency_value_witness :
    ∃ w2, Middleware.ServeHTTP noTime freshSink scenarioRequest (writeStatus 404 1500000)
        scenarioWorld = .returned (freshSink.WriteHeader 404) w2 ∧
      w2.m.latency.observations
        (recordedLabels (freshSink.WriteHeader 404) scenarioRequest) =
          [Float64.finite (3 / 2)] := by
  obtain ⟨w2, x, hserve, hobs, hx, _, hex, _⟩ := C9_latency_value noTime freshSink scenarioRequest
    (writeStatus 404 1500000) scenarioWorld (freshSink.WriteHeader 404)
    (scenarioWorld.elapse 1500000) rfl (by decide) (by decide)
  refine ⟨w2, hserve, ?_⟩
  rw [hobs, hx]
  have hs : time.Since (scenarioWorld.elapse noTime.resolve).now
      ((scenarioWorld.elapse 1500000).now + noTime.wrap + noTime.count + noTime.lookup) =
      1500000 := by decide
  rw [hs, hex]
  rfl

/-- C9, the claim as written fails: the handler takes exactly 1,000,000 ns
(1 millisecond) and the `Inc` of line 74 takes 500,000 ns; the value observed
is 1.5 milliseconds, the counter increment included, and not the value of the
1,000,000 ns of the downstream call. -/
theorem C9_counterexample :
    ∃ w2, Middleware.ServeHTTP slowCount freshSink scenarioRequest (writeStatus 404 1000000)
        scenarioWorld = .returned (freshSink.WriteHeader 404) w2 ∧
      w2.m.latency.observations
        (recordedLabels (freshSink.WriteHeader 404) scenarioRequest) =
          [Float64.finite (3 / 2)] ∧
      Float64.finite (3 / 2) ≠ millis 1000000 := by
  refine ⟨_, rfl, ?_, ?_⟩
  · show [millis (time.Since 0 1500000)] = [Float64.finite (3 / 2)]
    have hs : time.Since 0 1500000 = 1500000 := by decide
    rw [hs, millis_example]
  · obtain ⟨q, hq, _, hbound⟩ := millis_of_nonneg 1000000 (by norm_num)
    rw [hq]
    intro e
    have he : (3 / 2 : ℚ) = q := Float64.finite.inj e
    rw [← he] at hbound
    norm_num [abs_le] at hbound

/-- A handle that `NewMiddleware` returned with buckets in increasing order
serves every request with valid label values: in a state whose vectors carry
the descriptors and buckets of that handle, whenever the chain returns,
`ServeHTTP` returns too, with the request recorded once. -/
theorem handle_serves {σ : Type} (name : GoString) (b : List Float64) (reg : Registry)
    (m : Middleware) (reg1 : Registry) (hnew : NewMiddleware name b reg = .ok m reg1)
    (hinc : Increasing b)
    (t : Timing) (rw : http.ResponseWriter) (r : http.Request) (next : HandlerFunc σ)
    (w : World σ) (rw1 : http.ResponseWriter) (w1 : World σ)
    (h : next rw r (w.elapse t.resolve) = .returned rw1 w1)
    (hdesc : w1.m.reqs.desc = m.reqs.desc ∧ w1.m.latency.desc = m.latency.desc ∧
      w1.m.latency.buckets = m.latency.buckets)
    (hvalid : ValidLabels (recordedLabels rw1 r)) :
    ∃ w2, Middleware.ServeHTTP t rw r next w = .returned rw1 w2 ∧
      RecordsAt w1 w2 (recordedLabels rw1 r) := by
  have hm := (NewMiddleware_ok name b reg m reg1 hnew).1
  subst hm
  have hsame : w1.m.latency.upperBounds = (freshMiddleware name b).latency.upperBounds := by
    unfold HistogramVec.upperBounds
    rw [hdesc.2.1, hdesc.2.2]
  have hbuilds : w1.m.latency.builds = true := by
    unfold HistogramVec.builds
    rw [hsame, fresh_upperBounds]
    by_cases hb : b = []
    · subst hb
      rfl
    · rw [if_neg hb]
      by_cases hlast : b.getLast? = some Float64.posInf
      · obtain ⟨b', rfl⟩ : ∃ b', b = b' ++ [Float64.posInf] := by
          refine ⟨b.dropLast, ?_⟩
          have := List.dropLast_append_getLast? Float64.posInf (by rw [hlast]; simp)
          exact this.symm
        rw [checkBuckets_dropInf b' hinc]
      · rw [checkBuckets_increasing b hinc hlast]
  have hwf : w1.m.WellFormed := by
    refine ⟨?_, ?_, hbuilds⟩
    · rw [hdesc.1]
      rfl
    · rw [hdesc.2.1]
      rfl
  exact ⟨_, ServeHTTP_returned t rw r next w rw1 w1 h hwf hvalid,
    recordsAt_of_returned _ _ _ _ _⟩

/-- The scenario, with the handle of service `orders`. -/
theorem handle_serves_example :
    ∃ w2, Middleware.ServeHTTP noTime freshSink scenarioRequest (writeStatus 404 1500000)
        scenarioWorld = .returned (freshSink.WriteHeader 404) w2 ∧
      RecordsAt (scenarioWorld.elapse 1500000) w2
        (recordedLabels (freshSink.WriteHeader 404) scenarioRequest) :=
  handle_serves (str "orders") [] emptyRegistry (freshMiddleware (str "orders") []) _ rfl trivial
    noTime freshSink scenarioRequest (writeStatus 404 1500000) scenarioWorld
    (freshSink.WriteHeader 404) (scenarioWorld.elapse 1500000) rfl ⟨rfl, rfl, rfl⟩ (by decide)

end NegroniPrometheus
